import Mathlib

/-!
Verification of CVDiff_v5.py (CompositeView difference checker).

The Python program is shallowly embedded below.  Files on disk are modelled
by their parse outcome: a value of type `Option Elem` is `none` when
`xml.etree.ElementTree.parse` would raise, and `some e` when it would return
a tree with root `e`.  A snapshot folder is a list of
`(filename, parse outcome)` pairs; the program's `name → path` dictionaries
become association lists from names to the parsed content of the file at the
stored path (the program re-parses the stored path when comparing, so a path
and its parse outcome are interchangeable).  Python dicts preserve insertion
order and updating an existing key keeps its position, which `dictInsert`
reproduces.  Pandas data frames of prior reports are modelled as their list
of (Picture Name, Last_Update_Date) rows, the only columns the program reads.
-/

namespace CVDiff

/-! ### String primitives

Python compares strings by code point; `Char.toNat` is the code point. -/

/-- Lexicographic code-point comparison of character lists (Python `<=`). -/
def charListLe : List Char → List Char → Bool
  | [], _ => true
  | _ :: _, [] => false
  | a :: as, b :: bs =>
    if a.toNat < b.toNat then true
    else if b.toNat < a.toNat then false
    else charListLe as bs

/-- Python string `<=` (code-point lexicographic, case-sensitive). -/
def strLe (s t : String) : Bool := charListLe s.data t.data

/-- Whitespace class of Python's `\s` and `str.strip()` (ASCII part). -/
def pyWs (c : Char) : Bool :=
  c == ' ' || c == '\t' || c == '\n' || c == '\r' || c == '\x0b' || c == '\x0c'

/-- Python `str.strip()` on the underlying character list. -/
def pyStripList (l : List Char) : List Char :=
  ((l.dropWhile pyWs).reverse.dropWhile pyWs).reverse

/-- Python `str.strip()`. -/
def pyStrip (s : String) : String := ⟨pyStripList s.data⟩

/-- Collapsing pass of `re.sub(r'\s+', ' ', s)`: every maximal whitespace
run becomes a single space.  The flag records whether the previous character
belonged to a whitespace run already replaced. -/
def collapseAux : List Char → Bool → List Char
  | [], _ => []
  | c :: cs, prevWs =>
    if pyWs c then
      if prevWs then collapseAux cs true else ' ' :: collapseAux cs true
    else c :: collapseAux cs false

/-- Python `re.sub(r'\s+', ' ', s)`. -/
def collapseWs (s : String) : String := ⟨collapseAux s.data false⟩

/-- Value of a digit string (most significant digit first). -/
def natOfDigits : List Char → Nat
  | [] => 0
  | c :: cs => (c.toNat - 48) * 10 ^ cs.length + natOfDigits cs

/-- Split a character list at every occurrence of `sep` (Python `str.split`). -/
def splitCh (sep : Char) : List Char → List (List Char)
  | [] => [[]]
  | c :: cs =>
    if c = sep then [] :: splitCh sep cs
    else
      match splitCh sep cs with
      | [] => [[c]]
      | h :: t => (c :: h) :: t

/-- Prefix test on character lists. -/
def listIsPrefix : List Char → List Char → Bool
  | [], _ => true
  | _ :: _, [] => false
  | a :: as, b :: bs => a == b && listIsPrefix as bs

/-- Python `str.endswith`. -/
def strEndsWith (s t : String) : Bool := listIsPrefix t.data.reverse s.data.reverse

/-- Substring containment test on character lists (Python `in` on strings). -/
def listContainsSub (pat : List Char) : List Char → Bool
  | [] => listIsPrefix pat []
  | c :: cs => listIsPrefix pat (c :: cs) || listContainsSub pat cs

/-- Python `pat in s` for strings. -/
def strContainsSub (s pat : String) : Bool := listContainsSub pat.data s.data

/-- Python `ch in s` for a single character. -/
def strContainsChar (s : String) (ch : Char) : Bool := s.data.contains ch

/-! ### XML data model

`Elem` embeds `xml.etree.ElementTree.Element`: tag, attributes in insertion
order, text, tail, children. -/

inductive Elem where
  | mk (tag : String) (attrib : List (String × String)) (text : Option String)
      (tail : Option String) (children : List Elem)
deriving Repr

def Elem.tag : Elem → String
  | .mk t _ _ _ _ => t

def Elem.attrib : Elem → List (String × String)
  | .mk _ a _ _ _ => a

def Elem.text : Elem → Option String
  | .mk _ _ tx _ _ => tx

def Elem.tail : Elem → Option String
  | .mk _ _ _ tl _ => tl

def Elem.children : Elem → List Elem
  | .mk _ _ _ _ cs => cs

/-- Structural induction for `Elem` with hypotheses for all children. -/
theorem Elem.inductionOn {P : Elem → Prop}
    (h : ∀ t a tx tl cs, (∀ c, c ∈ cs → P c) → P (.mk t a tx tl cs)) : ∀ e, P e
  | .mk t a tx tl cs => by
    refine h t a tx tl cs fun c hc => ?_
    exact Elem.inductionOn h c
termination_by e => sizeOf e
decreasing_by
  have := List.sizeOf_lt_of_mem hc
  simp only [Elem.mk.sizeOf_spec]
  omega

/-- Truthiness of an optional string in Python (`None` and `""` are falsy). -/
def optTextTruthy : Option String → Bool
  | none => false
  | some s => s ≠ ""

/-! ### XML normalizer (`normalize_xml_element`, `remove_guid_from_value_tags`,
`xml_to_comparable_string`, `compare_xml_files`) -/

def ignore_tags : List String := ["Id", "Link"]

mutual
/-- Embeds `normalize_xml_element`: drop any subtree whose root tag is in
`ignore_tags`, keep everything else (tag, attributes, text, tail). -/
def normalize_xml_element : Elem → Option Elem
  | .mk t a tx tl cs =>
    if t ∈ ignore_tags then none
    else some (.mk t a tx tl (normChildren cs))

/-- The loop over children in `normalize_xml_element`: children whose
normalization returns `None` are omitted. -/
def normChildren : List Elem → List Elem
  | [] => []
  | c :: cs =>
    match normalize_xml_element c with
    | none => normChildren cs
    | some c' => c' :: normChildren cs
end

def isHexDigit (c : Char) : Bool :=
  c.isDigit || ('a' ≤ c && c ≤ 'f') || ('A' ≤ c && c ≤ 'F')

/-- Full match of `[0-9a-f]{8}-[0-9a-f]{4}-[0-9a-f]{4}-[0-9a-f]{4}-[0-9a-f]{12}`
with `re.IGNORECASE`.  Since hex digits contain no hyphen, a full match is
exactly a split into five hex groups of these lengths. -/
def isGuidString (s : String) : Bool :=
  match splitCh '-' s.data with
  | [a, b, c, d, e] =>
    a.length == 8 && b.length == 4 && c.length == 4 && d.length == 4 &&
    e.length == 12 && a.all isHexDigit && b.all isHexDigit && c.all isHexDigit &&
    d.all isHexDigit && e.all isHexDigit
  | _ => false

/-- The per-element effect of `remove_guid_from_value_tags` on text (lines
43-45): a `Value` element whose truthy text strips to a full GUID match gets
the placeholder, all other text is untouched. -/
def maskGuidText (t : String) (tx : Option String) : Option String :=
  if t = "Value" && optTextTruthy tx &&
      (match tx with | some s => isGuidString (pyStrip s) | none => false) then
    some "GUID_PLACEHOLDER"
  else tx

mutual
/-- Embeds `remove_guid_from_value_tags`: every element in `root.iter('Value')`
(which includes the root itself) is rewritten by `maskGuidText`. -/
def remove_guid_from_value_tags : Elem → Elem
  | .mk t a tx tl cs => .mk t a (maskGuidText t tx) tl (removeGuidChildren cs)

def removeGuidChildren : List Elem → List Elem
  | [] => []
  | c :: cs => remove_guid_from_value_tags c :: removeGuidChildren cs
end

/-- Escape of `ElementTree._escape_cdata` (text content). -/
def escTextChar (c : Char) : String :=
  if c = '&' then "&amp;"
  else if c = '<' then "&lt;"
  else if c = '>' then "&gt;"
  else ⟨[c]⟩

def escText (s : String) : String := String.join (s.data.map escTextChar)

/-- Escape of `ElementTree._escape_attrib` (attribute values). -/
def escAttribChar (c : Char) : String :=
  if c = '&' then "&amp;"
  else if c = '<' then "&lt;"
  else if c = '>' then "&gt;"
  else if c = '"' then "&quot;"
  else if c = '\r' then "&#13;"
  else if c = '\n' then "&#10;"
  else if c = '\t' then "&#09;"
  else ⟨[c]⟩

def escAttrib (s : String) : String := String.join (s.data.map escAttribChar)

def serializeAttribs (a : List (String × String)) : String :=
  String.join (a.map fun p => " " ++ p.1 ++ "=\"" ++ escAttrib p.2 ++ "\"")

mutual
/-- Embeds `ET.tostring(elem, encoding='unicode', method='xml')` for trees
without namespaces, comments or processing instructions (the only shapes this
program ever builds): attributes in insertion order, short empty elements,
truthy text and tail escaped and written, the tail after the closing tag. -/
def serializeElem : Elem → String
  | .mk t a tx tl cs =>
    let tailStr := match tl with | none => "" | some s => if s = "" then "" else escText s
    let textTruthy := optTextTruthy tx
    if textTruthy || !cs.isEmpty then
      "<" ++ t ++ serializeAttribs a ++ ">" ++
        (match tx with | none => "" | some s => if s = "" then "" else escText s) ++
        serializeList cs ++ "</" ++ t ++ ">" ++ tailStr
    else
      "<" ++ t ++ serializeAttribs a ++ " />" ++ tailStr

def serializeList : List Elem → String
  | [] => ""
  | c :: cs => serializeElem c ++ serializeList cs
end

inductive CompareResult where
  | SAME
  | DIFFERENT
deriving DecidableEq, Repr

/-- Embeds `xml_to_comparable_string`.  The argument is the parse outcome of
the file.  When the whole root is dropped by normalization the Python code
passes `None` to `ET.tostring`, which raises, and the handler returns `None`;
that is the `none` branch after normalization. -/
def xml_to_comparable_string (file : Option Elem) : Option String :=
  match file with
  | none => none
  | some root =>
    match normalize_xml_element (remove_guid_from_value_tags root) with
    | none => none
    | some nr => some ⟨pyStripList (collapseAux (serializeElem nr).data false)⟩

/-- Embeds `compare_xml_files`. -/
def compare_xml_files (old_xml new_xml : Option Elem) : CompareResult :=
  match xml_to_comparable_string old_xml, xml_to_comparable_string new_xml with
  | none, _ => .DIFFERENT
  | _, none => .DIFFERENT
  | some o, some n => if o = n then .SAME else .DIFFERENT

/-! ### Snapshot indexer (`get_picture_name_from_xml`,
`get_all_xml_files_from_folder`) -/

/-- Python `element.find(tag)`: first direct child with the given tag. -/
def findChild (e : Elem) (t : String) : Option Elem :=
  e.children.find? fun c => c.tag == t

/-- Embeds `get_picture_name_from_xml` on the parse outcome of a file.
The text truthiness test happens before stripping; names containing
`TEMP_` or `*` are rejected. -/
def get_picture_name_from_xml (file : Option Elem) : Option String :=
  match file with
  | none => none
  | some root =>
    match findChild root "Header" with
    | none => none
    | some header =>
      match findChild header "Name" with
      | none => none
      | some nameElem =>
        match nameElem.text with
        | none => none
        | some t =>
          if t = "" then none
          else
            let nm := pyStrip t
            if !strContainsSub nm "TEMP_" && !strContainsChar nm '*' then some nm
            else none

/-- Python dict membership / indexing: first entry with the key. -/
def dictFind {α : Type} (d : List (String × α)) (k : String) : Option α :=
  match d with
  | [] => none
  | p :: t => if p.1 = k then some p.2 else dictFind t k

/-- Python `d[k] = v`: updating an existing key keeps its position, a new key
is appended. -/
def dictInsert {α : Type} (k : String) (v : α) : List (String × α) → List (String × α)
  | [] => [(k, v)]
  | p :: t => if p.1 = k then (k, v) :: t else p :: dictInsert k v t

/-- Embeds `get_all_xml_files_from_folder`: files ending in `.xml` whose
picture name is truthy are inserted into the dict (last write wins on
duplicate names).  A missing folder gives the empty dict. -/
def get_all_xml_files_from_folder (folder : Option (List (String × Option Elem))) :
    List (String × Option Elem) :=
  match folder with
  | none => []
  | some files =>
    files.foldl
      (fun dict p =>
        if strEndsWith p.1 ".xml" then
          match get_picture_name_from_xml p.2 with
          | some nm => if nm = "" then dict else dictInsert nm p.2 dict
          | none => dict
        else dict)
      []

/-! ### Dates

`Date` stands for `datetime.datetime` at midnight; comparison of datetimes is
lexicographic on (year, month, day). -/

structure Date where
  y : Nat
  m : Nat
  d : Nat
deriving DecidableEq, Repr

/-- Python `datetime` comparison `<`. -/
def dateLtb (a b : Date) : Bool :=
  decide (a.y < b.y) ||
    (decide (a.y = b.y) && (decide (a.m < b.m) || (decide (a.m = b.m) && decide (a.d < b.d))))

def isLeapYear (y : Nat) : Bool :=
  y % 4 == 0 && (y % 100 != 0 || y % 400 == 0)

def daysInMonth (y m : Nat) : Nat :=
  if m = 2 then (if isLeapYear y then 29 else 28)
  else if m = 4 || m = 6 || m = 9 || m = 11 then 30
  else 31

/-- Calendar validity as enforced by `datetime`: year 1..9999, month 1..12,
day 1..days in month. -/
def validDate (y m d : Nat) : Bool :=
  decide (1 ≤ y) && decide (y ≤ 9999) && decide (1 ≤ m) && decide (m ≤ 12) &&
    decide (1 ≤ d) && decide (d ≤ daysInMonth y m)

/-- Shared tail of both strptime formats: the year group must be exactly four
digits (`%Y`), month and day one or two digits (`%m`, `%d`, which also reject
`00` since their value must be nonzero — here by `validDate`), and the
constructor validates the calendar date. -/
def parseYmdParts (ys ms ds : List Char) : Option Date :=
  if decide (ys.length = 4) && ys.all Char.isDigit &&
      decide (1 ≤ ms.length) && decide (ms.length ≤ 2) && ms.all Char.isDigit &&
      decide (1 ≤ ds.length) && decide (ds.length ≤ 2) && ds.all Char.isDigit then
    if validDate (natOfDigits ys) (natOfDigits ms) (natOfDigits ds) then
      some ⟨natOfDigits ys, natOfDigits ms, natOfDigits ds⟩
    else none
  else none

/-- Embeds `datetime.strptime(s, '%d/%m/%Y')` followed by the constructor's
calendar check: the separators are literal and nothing may be left over, so
the string must split on `/` into exactly three groups. -/
def parseDayMonthYear (s : String) : Option Date :=
  match splitCh '/' s.data with
  | [ds, ms, ys] => parseYmdParts ys ms ds
  | _ => none

/-- Embeds `datetime.strptime(s, '%Y-%m-%d')` plus the calendar check. -/
def parseIsoDate (s : String) : Option Date :=
  match splitCh '-' s.data with
  | [ys, ms, ds] => parseYmdParts ys ms ds
  | _ => none

def digitChar (n : Nat) : Char := Char.ofNat (48 + n)

def pad2 (n : Nat) : String := ⟨[digitChar (n / 10 % 10), digitChar (n % 10)]⟩

def pad4 (n : Nat) : String :=
  ⟨[digitChar (n / 1000 % 10), digitChar (n / 100 % 10), digitChar (n / 10 % 10),
    digitChar (n % 10)]⟩

/-- Embeds `dt.strftime('%Y-%m-%d')` for the dates this program produces
(`%Y` is zero-padded to four digits; CPython on glibc prints years below 1000
unpadded, a corner never exercised here since all parsed years have four
digits and folder years below 1000 are not used in any statement below). -/
def formatIsoDate (dt : Date) : String :=
  pad4 dt.y ++ "-" ++ pad2 dt.m ++ "-" ++ pad2 dt.d

/-- Embeds `convert_date` (defined inside `compare_and_update`): `NaN` becomes
`None`; otherwise try `%d/%m/%Y`, then `%Y-%m-%d`, reformatting a success as
ISO; both failing gives `None`. -/
def convert_date (raw : Option String) : Option String :=
  match raw with
  | none => none
  | some s =>
    match parseDayMonthYear s with
    | some dt => some (formatIsoDate dt)
    | none =>
      match parseIsoDate s with
      | some dt => some (formatIsoDate dt)
      | none => none

/-! ### Folder/version resolver (`get_all_date_folders`, `find_backup_folder`) -/

/-- The regex `^\d{8}$` from `get_all_date_folders`. -/
def isEightDigitName (s : String) : Bool :=
  decide (s.data.length = 8) && s.data.all Char.isDigit

/-- The date parsed from an 8-digit folder name `YYYYMMDD`. -/
def folderDate (s : String) : Date :=
  ⟨natOfDigits (s.data.take 4), natOfDigits ((s.data.drop 4).take 2),
    natOfDigits (s.data.drop 6)⟩

/-- Embeds `datetime.strptime(item, '%Y%m%d')` succeeding on an 8-digit name:
`%Y` takes the first four digits, `%m` must then match two digits `01`-`12`,
`%d` two digits `01`-`31` (a one-digit match would leave unconverted data),
and the constructor checks the day against the month. -/
def validYmd8 (s : String) : Bool :=
  validDate (folderDate s).y (folderDate s).m (folderDate s).d

/-- Embeds `dt.strftime('%Y-%m-%d')` applied to
`datetime.strptime(date_str, '%Y%m%d')` (lines 164-165). -/
def displayDate (s : String) : String := formatIsoDate (folderDate s)

/-- Embeds `get_all_date_folders`.  The directory listing is a list of
`(name, is_directory)` pairs.  Python `list.sort()` sorts the qualifying
names ascending by code point; the names are pairwise distinct in a real
directory listing, so any comparison sort returns this unique result and we
use insertion sort. -/
def get_all_date_folders (entries : List (String × Bool)) : List String :=
  List.insertionSort (fun a b => strLe a b = true)
    ((entries.filter fun p => p.2 && isEightDigitName p.1 && validYmd8 p.1).map Prod.fst)

/-- Embeds lines 149-160 of `compare_and_update`: fewer than two qualifying
folders aborts the category, otherwise the last two of the ascending list are
the (old, new) pair. -/
def resolveComparison (entries : List (String × Bool)) : Option (String × String) :=
  let folders := get_all_date_folders entries
  if h : folders.length < 2 then none
  else
    some (folders.get ⟨folders.length - 2, by omega⟩,
      folders.get ⟨folders.length - 1, by omega⟩)

/-! ### Report files and the filesystem model -/

/-- A weekday-tagged report CSV as read back by pandas: its
(`Picture Name`, `Last_Update_Date`) rows, a `None` date being `NaN`.
The `Diff_Result` column is never read.  Reports written by this program
always carry the `Last_Update_Date` column, so the column-presence test of
`find_latest_diffreport_csv` is always true here. -/
structure ReportFile where
  rows : List (String × Option String)
deriving DecidableEq, Repr

/-- The state touched by one run: the names under the backup base path with
their directory flag, the content of `<base>/<date>/<category>` folders, and
the report CSVs in the DiffReport folder by file name. -/
structure FileSys where
  backupEntries : List (String × Bool)
  catFolder : String → String → Option (List (String × Option Elem))
  reports : List (String × ReportFile)

def weekdays : List String := ["Mon", "Tue", "Wed", "Thu", "Fri", "Sat", "Sun"]

def baseFilename (report_type : String) : String :=
  if report_type = "Composite" then "CompositeView_Diff" else "Substation_Diff"

def reportCsvName (base day : String) : String := base ++ "_" ++ day ++ ".csv"

/-- Pandas `Series.max()` on a column of strings: code-point lexicographic
maximum, `NaN` (here `none`) when empty. -/
def lexMaxString : List String → Option String
  | [] => none
  | s :: t =>
    match lexMaxString t with
    | none => some s
    | some m => if strLe s m then some m else some s

/-- Lines 90-93: a date string read back from a report is parsed as
`%d/%m/%Y` when it contains a slash and as `%Y-%m-%d` otherwise. -/
def parseReportDate (s : String) : Option Date :=
  if strContainsChar s '/' then parseDayMonthYear s else parseIsoDate s

/-- Lines 87-98 of `find_latest_diffreport_csv` for one weekday file: the
lexicographic maximum of the non-null `Last_Update_Date` strings, parsed by
`parseReportDate`; any failure skips the file. -/
def fileCandidate (reports : List (String × ReportFile)) (base day : String) :
    Option Date :=
  match dictFind reports (reportCsvName base day) with
  | none => none
  | some file =>
    match lexMaxString (file.rows.filterMap Prod.snd) with
    | none => none
    | some m => parseReportDate m

/-- The weekday loop of `find_latest_diffreport_csv`: keep the file whose
parsed maximum strictly exceeds the best so far. -/
def findLatestAux (reports : List (String × ReportFile)) (base : String) :
    List String → Option (String × Date) → Option (String × Date)
  | [], acc => acc
  | day :: rest, acc =>
    match fileCandidate reports base day with
    | none => findLatestAux reports base rest acc
    | some dt =>
      match acc with
      | none => findLatestAux reports base rest (some (reportCsvName base day, dt))
      | some best =>
        if dateLtb best.2 dt then
          findLatestAux reports base rest (some (reportCsvName base day, dt))
        else findLatestAux reports base rest acc

/-- Embeds `find_latest_diffreport_csv`. -/
def find_latest_diffreport_csv (reports : List (String × ReportFile))
    (report_type : String) : Option String :=
  (findLatestAux reports (baseFilename report_type) weekdays none).map Prod.fst

/-- Embeds `find_backup_folder`. -/
def find_backup_folder (fs : FileSys) (date_str report_type : String) :
    Option (List (String × Option Elem)) :=
  if report_type = "Composite" then fs.catFolder date_str "Composite"
  else if report_type = "Substation" then fs.catFolder date_str "Substation"
  else none

/-! ### Report merger (lines 204-251 of `compare_and_update`) -/

inductive DiffClass where
  | NEW
  | DELETED
  | UPDATED
  | NIL
deriving DecidableEq, Repr

structure Record where
  name : String
  date : Option String
  result : DiffClass
deriving DecidableEq, Repr

/-- Lines 218-219 / 243-244: the first `Last_Update_Date` of the old report
rows whose `Picture Name` equals the entity, else the old snapshot date. -/
def carriedDate (df_master : List (String × Option String)) (nm : String)
    (old_date_display : String) : Option String :=
  match df_master.filter (fun p => p.1 = nm) with
  | [] => some old_date_display
  | p :: _ => p.2

/-- The body of the first loop (lines 210-238): one entity of the new index. -/
def classifyNewSide (old_dict : List (String × Option Elem))
    (df_master : List (String × Option String))
    (old_date_display new_date_display : String) (p : String × Option Elem) : Record :=
  match dictFind old_dict p.1 with
  | some old_xml =>
    if compare_xml_files old_xml p.2 = .SAME then
      ⟨p.1, carriedDate df_master p.1 old_date_display, .NIL⟩
    else ⟨p.1, some new_date_display, .UPDATED⟩
  | none => ⟨p.1, some new_date_display, .NEW⟩

/-- The body of the second loop (lines 239-249): an old entity is emitted as
`DELETED` exactly when its name is missing from the new index. -/
def classifyOldSide (new_dict : List (String × Option Elem))
    (df_master : List (String × Option String))
    (old_date_display : String) (p : String × Option Elem) : Option Record :=
  match dictFind new_dict p.1 with
  | some _ => none
  | none => some ⟨p.1, carriedDate df_master p.1 old_date_display, .DELETED⟩

/-- The two classification loops of `compare_and_update` (lines 210-249), in
emission order: first every entity of the new index, then every entity of the
old index missing from the new one. -/
def mergeRecords (old_dict new_dict : List (String × Option Elem))
    (df_master : List (String × Option String))
    (old_date_display new_date_display : String) : List Record :=
  new_dict.map (classifyNewSide old_dict df_master old_date_display new_date_display) ++
    old_dict.filterMap (classifyOldSide new_dict df_master old_date_display)

/-- Line 251, `df_new.sort_values(by='Picture Name', ascending=True)`: rows
sorted ascending by name.  Names are pairwise distinct (one record per dict
key), so every comparison sort agrees and insertion sort is used. -/
def sortByName (l : List Record) : List Record :=
  List.insertionSort (fun r s => strLe r.name s.name = true) l

/-- Number of `UPDATED` rows, the program's `updated_count`. -/
def updatedCount (l : List Record) : Nat :=
  (l.filter fun r => r.result = .UPDATED).length

/-- Lines 166-189 of `compare_and_update`: locate the freshest prior report,
read its rows and normalize the date column with `convert_date`; no usable
prior report gives the empty row list (an empty data frame). -/
def load_old_report (reports : List (String × ReportFile)) (report_type : String) :
    List (String × Option String) :=
  match find_latest_diffreport_csv reports report_type with
  | some fname =>
    match dictFind reports fname with
    | some file => file.rows.map fun p => (p.1, convert_date p.2)
    | none => []
  | none => []

/-- Embeds `compare_and_update` (minus console output): resolve the two
latest date folders, load and date-normalize the freshest prior report,
index both category folders, merge, sort.  `none` means the category run
aborted and no report is written. -/
def compare_and_update (report_type : String) (fs : FileSys) : Option (List Record) :=
  match resolveComparison fs.backupEntries with
  | none => none
  | some (old_date_str, new_date_str) =>
    let old_date_display := displayDate old_date_str
    let new_date_display := displayDate new_date_str
    let df_master : List (String × Option String) :=
      load_old_report fs.reports report_type
    match find_backup_folder fs old_date_str report_type,
        find_backup_folder fs new_date_str report_type with
    | some folder_old, some folder_new =>
      let old_xml_dict := get_all_xml_files_from_folder (some folder_old)
      let new_xml_dict := get_all_xml_files_from_folder (some folder_new)
      some (sortByName
        (mergeRecords old_xml_dict new_xml_dict df_master old_date_display
          new_date_display))
    | _, _ => none

/-- One category of the orchestrator: on success the report is written to
`<base>_<weekday>.csv` (lines 259-265), on failure the filesystem is
untouched. -/
def runCategory (report_type today_weekday : String) (fs : FileSys) :
    FileSys × Option (List Record) :=
  match compare_and_update report_type fs with
  | none => (fs, none)
  | some rep =>
    ({ fs with
        reports := dictInsert (reportCsvName (baseFilename report_type) today_weekday)
          ⟨rep.map fun r => (r.name, r.date)⟩ fs.reports },
      some rep)

/-- The `--report-type both` run: Composite first, then Substation on the
resulting filesystem. -/
def runBoth (today_weekday : String) (fs : FileSys) :
    FileSys × (Option (List Record) × Option (List Record)) :=
  let c := runCategory "Composite" today_weekday fs
  let s := runCategory "Substation" today_weekday c.1
  (s.1, (c.2, s.2))

end CVDiff

namespace CVDiff

/-! ### Order facts for the sorts -/

theorem charListLe_total : ∀ a b, charListLe a b = true ∨ charListLe b a = true := by
  intro a
  induction a with
  | nil => intro b; left; rfl
  | cons x xs ih =>
    intro b
    cases b with
    | nil => right; rfl
    | cons y ys =>
      rcases Nat.lt_trichotomy x.toNat y.toNat with h | h | h
      · left; simp [charListLe]; omega
      · rcases ih ys with h2 | h2
        · left; simp [charListLe, h2]; omega
        · right; simp [charListLe, h2]; omega
      · right; simp [charListLe]; omega

theorem charListLe_trans :
    ∀ a b c, charListLe a b = true → charListLe b c = true → charListLe a c = true := by
  intro a
  induction a with
  | nil => intro b c _ _; rfl
  | cons x xs ih =>
    intro b c hab hbc
    cases b with
    | nil => simp [charListLe] at hab
    | cons y ys =>
      cases c with
      | nil => simp [charListLe] at hbc
      | cons z zs =>
        simp only [charListLe] at hab hbc ⊢
        split_ifs at hab hbc ⊢ with h1 h2 h3 h4 h5 h6 <;>
          first
            | rfl
            | omega
            | (exact ih ys zs hab hbc)

instance recordNameLeTotal : IsTotal Record (fun r s => strLe r.name s.name = true) :=
  ⟨fun a b => charListLe_total a.name.data b.name.data⟩

instance recordNameLeTrans : IsTrans Record (fun r s => strLe r.name s.name = true) :=
  ⟨fun a b c => charListLe_trans a.name.data b.name.data c.name.data⟩

instance strLeTotal : IsTotal String (fun a b => strLe a b = true) :=
  ⟨fun a b => charListLe_total a.data b.data⟩

instance strLeTrans : IsTrans String (fun a b => strLe a b = true) :=
  ⟨fun a b c => charListLe_trans a.data b.data c.data⟩

/-! ### Dictionary lemmas -/

theorem dictFind_eq_none_iff {α : Type} (d : List (String × α)) (k : String) :
    dictFind d k = none ↔ ∀ p ∈ d, p.1 ≠ k := by
  induction d with
  | nil => simp [dictFind]
  | cons p t ih =>
    by_cases h : p.1 = k
    · simp [dictFind, h]
    · simp [dictFind, h, ih]

theorem dictFind_mem {α : Type} {d : List (String × α)} {k : String} {v : α}
    (h : dictFind d k = some v) : (k, v) ∈ d := by
  induction d with
  | nil => simp [dictFind] at h
  | cons p t ih =>
    by_cases hp : p.1 = k
    · simp [dictFind, hp] at h
      subst hp
      rw [← h]
      simp
    · simp [dictFind, hp] at h
      exact List.mem_cons_of_mem _ (ih h)

theorem dictFind_isSome_of_mem {α : Type} {d : List (String × α)} {p : String × α}
    (h : p ∈ d) : (dictFind d p.1).isSome := by
  induction d with
  | nil => simp at h
  | cons q t ih =>
    rcases List.mem_cons.1 h with rfl | h2
    · simp [dictFind]
    · by_cases hq : q.1 = p.1
      · simp [dictFind, hq]
      · simp [dictFind, hq]
        exact ih h2

theorem dictFind_of_mem_nodup {α : Type} {d : List (String × α)}
    (hnd : (d.map Prod.fst).Nodup) {k : String} {v : α} (h : (k, v) ∈ d) :
    dictFind d k = some v := by
  induction d with
  | nil => simp at h
  | cons p t ih =>
    simp only [List.map_cons, List.nodup_cons] at hnd
    rcases List.mem_cons.1 h with rfl | h2
    · simp [dictFind]
    · have hne : p.1 ≠ k := by
        intro he
        exact hnd.1 (he ▸ List.mem_map_of_mem Prod.fst h2)
      simp [dictFind, hne]
      exact ih hnd.2 h2

theorem mem_keys_dictInsert {α : Type} (k : String) (v : α) (d : List (String × α))
    (a : String) :
    a ∈ (dictInsert k v d).map Prod.fst ↔ a = k ∨ a ∈ d.map Prod.fst := by
  induction d with
  | nil => simp [dictInsert, eq_comm]
  | cons p t ih =>
    by_cases h : p.1 = k
    · subst h
      simp [dictInsert, eq_comm]
    · simp only [dictInsert, if_neg h, List.map_cons, List.mem_cons, ih]
      tauto

theorem dictInsert_keys_nodup {α : Type} (k : String) (v : α)
    {d : List (String × α)} (hnd : (d.map Prod.fst).Nodup) :
    ((dictInsert k v d).map Prod.fst).Nodup := by
  induction d with
  | nil => simp [dictInsert]
  | cons p t ih =>
    simp only [List.map_cons, List.nodup_cons] at hnd
    by_cases h : p.1 = k
    · subst h
      simpa [dictInsert] using hnd
    · simp only [dictInsert, if_neg h, List.map_cons, List.nodup_cons]
      refine ⟨fun hm => ?_, ih hnd.2⟩
      rcases (mem_keys_dictInsert k v t p.1).1 hm with he | he
      · exact h he
      · exact hnd.1 he

theorem nodup_keys_get_all_xml_files (folder : Option (List (String × Option Elem))) :
    ((get_all_xml_files_from_folder folder).map Prod.fst).Nodup := by
  cases folder with
  | none => simp [get_all_xml_files_from_folder]
  | some files =>
    suffices h : ∀ (fs : List (String × Option Elem)) (acc : List (String × Option Elem)),
        (acc.map Prod.fst).Nodup →
        ((fs.foldl
          (fun dict p =>
            if strEndsWith p.1 ".xml" then
              match get_picture_name_from_xml p.2 with
              | some nm => if nm = "" then dict else dictInsert nm p.2 dict
              | none => dict
            else dict) acc).map Prod.fst).Nodup by
      exact h files [] (by simp)
    intro fs
    induction fs with
    | nil => intro acc hacc; exact hacc
    | cons p t ih =>
      intro acc hacc
      simp only [List.foldl_cons]
      apply ih
      by_cases hx : strEndsWith p.1 ".xml"
      · simp only [hx, if_true]
        cases hn : get_picture_name_from_xml p.2 with
        | none => exact hacc
        | some nm =>
          by_cases he : nm = ""
          · simp [he, hacc]
          · simp only [if_neg he]
            exact dictInsert_keys_nodup nm p.2 hacc
      · simpa [hx] using hacc

/-! ### Comparison lemmas -/

theorem compare_self {d : Option Elem} (h : xml_to_comparable_string d ≠ none) :
    compare_xml_files d d = .SAME := by
  unfold compare_xml_files
  cases hc : xml_to_comparable_string d with
  | none => exact absurd hc h
  | some s => simp

end CVDiff

namespace CVDiff

/-! ### Shape of the merged records -/

theorem classifyNewSide_name (o : List (String × Option Elem))
    (df : List (String × Option String)) (d1 d2 : String) (p : String × Option Elem) :
    (classifyNewSide o df d1 d2 p).name = p.1 := by
  unfold classifyNewSide
  cases dictFind o p.1 with
  | none => rfl
  | some w => by_cases h : compare_xml_files w p.2 = .SAME <;> simp [h]

theorem classifyOldSide_eq_some (n : List (String × Option Elem))
    (df : List (String × Option String)) (d1 : String) (p : String × Option Elem)
    (r : Record) :
    classifyOldSide n df d1 p = some r ↔
      dictFind n p.1 = none ∧ r = ⟨p.1, carriedDate df p.1 d1, .DELETED⟩ := by
  unfold classifyOldSide
  cases dictFind n p.1 with
  | none => simp [eq_comm]
  | some w => simp

theorem newSide_filter_eq_nil {n : List (String × Option Elem)} {nm : String}
    (h : ∀ p ∈ n, p.1 ≠ nm) (o : List (String × Option Elem))
    (df : List (String × Option String)) (d1 d2 : String) :
    (n.map (classifyNewSide o df d1 d2)).filter (fun r => r.name == nm) = [] := by
  rw [List.filter_eq_nil_iff]
  intro r hr
  rcases List.mem_map.1 hr with ⟨p, hp, rfl⟩
  simp [classifyNewSide_name, h p hp]

theorem newSide_filter (o : List (String × Option Elem))
    (df : List (String × Option String)) (d1 d2 : String)
    {n : List (String × Option Elem)} (hn : (n.map Prod.fst).Nodup) (nm : String) :
    (n.map (classifyNewSide o df d1 d2)).filter (fun r => r.name == nm) =
      match dictFind n nm with
      | some v => [classifyNewSide o df d1 d2 (nm, v)]
      | none => [] := by
  induction n with
  | nil => rfl
  | cons p t ih =>
    simp only [List.map_cons, List.nodup_cons] at hn
    by_cases h : p.1 = nm
    · subst h
      have ht : ∀ q ∈ t, q.1 ≠ p.1 := by
        intro q hq he
        exact hn.1 (he ▸ List.mem_map_of_mem Prod.fst hq)
      simp only [List.map_cons, List.filter_cons, classifyNewSide_name, beq_self_eq_true,
        if_true, newSide_filter_eq_nil ht o df d1 d2, dictFind, if_pos rfl]
    · have hb : ((classifyNewSide o df d1 d2 p).name == nm) = false := by
        simp [classifyNewSide_name, h]
      simp only [List.map_cons, List.filter_cons, hb, dictFind, if_neg h]
      exact ih hn.2

theorem oldSide_filter_eq_nil {o : List (String × Option Elem)} {nm : String}
    (h : ∀ p ∈ o, p.1 ≠ nm) (n : List (String × Option Elem))
    (df : List (String × Option String)) (d1 : String) :
    (o.filterMap (classifyOldSide n df d1)).filter (fun r => r.name == nm) = [] := by
  rw [List.filter_eq_nil_iff]
  intro r hr
  rcases List.mem_filterMap.1 hr with ⟨p, hp, hc⟩
  rcases (classifyOldSide_eq_some n df d1 p r).1 hc with ⟨_, rfl⟩
  simp [h p hp]

theorem oldSide_filter (n : List (String × Option Elem))
    (df : List (String × Option String)) (d1 : String)
    {o : List (String × Option Elem)} (ho : (o.map Prod.fst).Nodup) (nm : String) :
    (o.filterMap (classifyOldSide n df d1)).filter (fun r => r.name == nm) =
      match dictFind o nm, dictFind n nm with
      | some _, none => [⟨nm, carriedDate df nm d1, .DELETED⟩]
      | _, _ => [] := by
  induction o with
  | nil => simp [dictFind, List.filterMap]
  | cons p t ih =>
    simp only [List.map_cons, List.nodup_cons] at ho
    have ih2 := ih ho.2
    by_cases h : p.1 = nm
    · subst h
      have ht : ∀ q ∈ t, q.1 ≠ p.1 := fun q hq he =>
        ho.1 (he ▸ List.mem_map_of_mem Prod.fst hq)
      have hop : dictFind (p :: t) p.1 = some p.2 := by simp [dictFind]
      rw [hop]
      cases hfn : dictFind n p.1 with
      | some w =>
        have hcl : classifyOldSide n df d1 p = none := by
          unfold classifyOldSide
          rw [hfn]
        simp only [List.filterMap_cons, hcl]
        rw [oldSide_filter_eq_nil ht n df d1]
      | none =>
        have hcl : classifyOldSide n df d1 p =
            some ⟨p.1, carriedDate df p.1 d1, .DELETED⟩ := by
          unfold classifyOldSide
          rw [hfn]
        simp only [List.filterMap_cons, hcl, List.filter_cons, beq_self_eq_true, if_true]
        rw [oldSide_filter_eq_nil ht n df d1]
    · have hd : dictFind (p :: t) nm = dictFind t nm := by simp [dictFind, h]
      rw [hd]
      cases hcl : classifyOldSide n df d1 p with
      | none =>
        simp only [List.filterMap_cons, hcl]
        exact ih2
      | some r =>
        rcases (classifyOldSide_eq_some n df d1 p r).1 hcl with ⟨_, rfl⟩
        have hb : ((Record.mk p.1 (carriedDate df p.1 d1) .DELETED).name == nm) = false := by
          simp [h]
        simp only [List.filterMap_cons, hcl, List.filter_cons, hb, if_neg, Bool.false_eq_true,
          if_false]
        exact ih2

/-- Per-name content of the merged-and-sorted report. -/
theorem report_filter (o n : List (String × Option Elem))
    (df : List (String × Option String)) (d1 d2 : String)
    (ho : (o.map Prod.fst).Nodup) (hn : (n.map Prod.fst).Nodup) (nm : String) :
    (sortByName (mergeRecords o n df d1 d2)).filter (fun r => r.name == nm) =
      match dictFind n nm, dictFind o nm with
      | some v, some _ => [classifyNewSide o df d1 d2 (nm, v)]
      | some _, none => [⟨nm, some d2, .NEW⟩]
      | none, some _ => [⟨nm, carriedDate df nm d1, .DELETED⟩]
      | none, none => [] := by
  have hperm : ((sortByName (mergeRecords o n df d1 d2)).filter (fun r => r.name == nm)).Perm
      ((mergeRecords o n df d1 d2).filter (fun r => r.name == nm)) :=
    (List.perm_insertionSort _ _).filter _
  have hsplit : (mergeRecords o n df d1 d2).filter (fun r => r.name == nm) =
      (n.map (classifyNewSide o df d1 d2)).filter (fun r => r.name == nm) ++
        (o.filterMap (classifyOldSide n df d1)).filter (fun r => r.name == nm) := by
    unfold mergeRecords
    exact List.filter_append _ _
  rw [hsplit, newSide_filter o df d1 d2 hn nm, oldSide_filter n df d1 ho nm] at hperm
  cases hfn : dictFind n nm with
  | some v =>
    rw [hfn] at hperm
    cases hfo : dictFind o nm with
    | some w =>
      rw [hfo] at hperm
      exact List.perm_singleton.1 (by simpa using hperm)
    | none =>
      rw [hfo] at hperm
      have h1 : (sortByName (mergeRecords o n df d1 d2)).filter (fun r => r.name == nm) =
          [classifyNewSide o df d1 d2 (nm, v)] :=
        List.perm_singleton.1 (by simpa using hperm)
      rw [h1]
      simp [classifyNewSide, hfo]
  | none =>
    rw [hfn] at hperm
    cases hfo : dictFind o nm with
    | some w =>
      rw [hfo] at hperm
      exact List.perm_singleton.1 (by simpa using hperm)
    | none =>
      rw [hfo] at hperm
      exact List.Perm.eq_nil (by simpa using hperm)

end CVDiff

namespace CVDiff

/-! ### Membership characterizations and name distinctness -/

theorem mem_merge_deleted (o n : List (String × Option Elem))
    (df : List (String × Option String)) (d1 d2 : String) (nm : String) :
    (∃ r ∈ mergeRecords o n df d1 d2, r.name = nm ∧ r.result = .DELETED) ↔
      ((dictFind o nm).isSome ∧ dictFind n nm = none) := by
  constructor
  · rintro ⟨r, hr, hname, hres⟩
    rcases List.mem_append.1 hr with hmem | hmem
    · rcases List.mem_map.1 hmem with ⟨p, _, rfl⟩
      unfold classifyNewSide at hres
      cases h : dictFind o p.1 with
      | none => rw [h] at hres; cases hres
      | some w =>
        rw [h] at hres
        by_cases hc : compare_xml_files w p.2 = .SAME
        · simp [hc] at hres
        · simp [hc] at hres
    · rcases List.mem_filterMap.1 hmem with ⟨p, hp, hc⟩
      rcases (classifyOldSide_eq_some n df d1 p r).1 hc with ⟨hfind, rfl⟩
      subst hname
      exact ⟨dictFind_isSome_of_mem hp, hfind⟩
  · rintro ⟨hsome, hnone⟩
    rcases Option.isSome_iff_exists.1 hsome with ⟨v, hv⟩
    refine ⟨⟨nm, carriedDate df nm d1, .DELETED⟩, ?_, rfl, rfl⟩
    refine List.mem_append_right _ (List.mem_filterMap.2 ⟨(nm, v), dictFind_mem hv, ?_⟩)
    exact (classifyOldSide_eq_some n df d1 (nm, v) _).2 ⟨hnone, rfl⟩

theorem mem_merge_new (o n : List (String × Option Elem))
    (df : List (String × Option String)) (d1 d2 : String) (nm : String) :
    (∃ r ∈ mergeRecords o n df d1 d2, r.name = nm ∧ r.result = .NEW) ↔
      ((dictFind n nm).isSome ∧ dictFind o nm = none) := by
  constructor
  · rintro ⟨r, hr, hname, hres⟩
    rcases List.mem_append.1 hr with hmem | hmem
    · rcases List.mem_map.1 hmem with ⟨p, hp, rfl⟩
      rw [classifyNewSide_name] at hname
      subst hname
      unfold classifyNewSide at hres
      cases h : dictFind o p.1 with
      | some w =>
        rw [h] at hres
        by_cases hc : compare_xml_files w p.2 = .SAME
        · simp [hc] at hres
        · simp [hc] at hres
      | none => exact ⟨dictFind_isSome_of_mem hp, rfl⟩
    · rcases List.mem_filterMap.1 hmem with ⟨p, _, hc⟩
      rcases (classifyOldSide_eq_some n df d1 p r).1 hc with ⟨_, rfl⟩
      cases hres
  · rintro ⟨hsome, hnone⟩
    rcases Option.isSome_iff_exists.1 hsome with ⟨v, hv⟩
    refine ⟨classifyNewSide o df d1 d2 (nm, v), ?_, classifyNewSide_name o df d1 d2 (nm, v),
      ?_⟩
    · exact List.mem_append_left _ (List.mem_map_of_mem _ (dictFind_mem hv))
    · unfold classifyNewSide
      rw [hnone]

theorem oldSide_names_sublist (n : List (String × Option Elem))
    (df : List (String × Option String)) (d1 : String) :
    ∀ o : List (String × Option Elem),
      ((o.filterMap (classifyOldSide n df d1)).map Record.name).Sublist (o.map Prod.fst) := by
  intro o
  induction o with
  | nil => simp
  | cons p t ih =>
    cases hcl : classifyOldSide n df d1 p with
    | none =>
      simp only [List.filterMap_cons, hcl, List.map_cons]
      exact ih.cons p.1
    | some r =>
      rcases (classifyOldSide_eq_some n df d1 p r).1 hcl with ⟨_, rfl⟩
      simp only [List.filterMap_cons, hcl, List.map_cons]
      exact ih.cons₂ p.1

theorem merge_names_nodup (o n : List (String × Option Elem))
    (df : List (String × Option String)) (d1 d2 : String)
    (ho : (o.map Prod.fst).Nodup) (hn : (n.map Prod.fst).Nodup) :
    ((mergeRecords o n df d1 d2).map Record.name).Nodup := by
  unfold mergeRecords
  rw [List.map_append, List.nodup_append]
  have hnew : (n.map (classifyNewSide o df d1 d2)).map Record.name = n.map Prod.fst := by
    rw [List.map_map]
    exact List.map_congr_left fun p _ => classifyNewSide_name o df d1 d2 p
  refine ⟨hnew ▸ hn, (oldSide_names_sublist n df d1 o).nodup ho, ?_⟩
  intro a ha hb
  rw [hnew] at ha
  rcases List.mem_map.1 ha with ⟨q, hq, rfl⟩
  rcases List.mem_map.1 hb with ⟨r, hr, hname⟩
  rcases List.mem_filterMap.1 hr with ⟨p, _, hc⟩
  rcases (classifyOldSide_eq_some n df d1 p r).1 hc with ⟨hfind, rfl⟩
  have hname2 : p.1 = q.1 := hname
  have : (dictFind n p.1).isSome := by
    rw [hname2]
    exact dictFind_isSome_of_mem hq
  rw [hfind] at this
  cases this

theorem count_le_one_of_names_nodup {rep : List Record}
    (h : (rep.map Record.name).Nodup) (nm : String) :
    (rep.filter (fun r => r.name == nm)).length ≤ 1 := by
  induction rep with
  | nil => simp
  | cons r t ih =>
    simp only [List.map_cons, List.nodup_cons] at h
    by_cases he : r.name = nm
    · have ht : t.filter (fun r => r.name == nm) = [] := by
        rw [List.filter_eq_nil_iff]
        intro s hs hsn
        rw [beq_iff_eq] at hsn
        have hsr : s.name = r.name := by rw [hsn, he]
        exact h.1 (hsr ▸ List.mem_map_of_mem Record.name hs)
      simp [List.filter_cons, he, ht]
    · simpa [List.filter_cons, he] using ih h.2

/-- Any successful `compare_and_update` run produces the sorted merge of two
indexes with distinct keys. -/
theorem compare_eq_some_shape {report_type : String} {fs : FileSys} {rep : List Record}
    (h : compare_and_update report_type fs = some rep) :
    ∃ o n df d1 d2, (o.map Prod.fst).Nodup ∧ (n.map Prod.fst).Nodup ∧
      rep = sortByName (mergeRecords o n df d1 d2) := by
  unfold compare_and_update at h
  cases hres : resolveComparison fs.backupEntries with
  | none => rw [hres] at h; cases h
  | some pr =>
    rw [hres] at h
    obtain ⟨od, nd⟩ := pr
    simp only at h
    cases hfo : find_backup_folder fs od report_type with
    | none =>
      rw [hfo] at h
      cases hfn : find_backup_folder fs nd report_type with
      | none => rw [hfn] at h; cases h
      | some fn => rw [hfn] at h; cases h
    | some fo =>
      rw [hfo] at h
      cases hfn : find_backup_folder fs nd report_type with
      | none => rw [hfn] at h; cases h
      | some fn =>
        rw [hfn] at h
        exact ⟨_, _, _, _, _, nodup_keys_get_all_xml_files (some fo),
          nodup_keys_get_all_xml_files (some fn), (Option.some_inj.1 h).symm⟩

end CVDiff

namespace CVDiff

/-! ### Sample data used by witnesses -/

/-- A well-formed document indexed under name `A`. -/
def sampleDocA : Elem :=
  .mk "Composite" [] none none [.mk "Header" [] none none [.mk "Name" [] (some "A") none []]]

/-- A well-formed document indexed under name `B`. -/
def sampleDocB : Elem :=
  .mk "Composite" [] none none [.mk "Header" [] none none [.mk "Name" [] (some "B") none []]]

/-- A concrete filesystem with two snapshot folders and no prior reports. -/
def sampleFs : FileSys where
  backupEntries := [("20240102", true), ("20240101", true)]
  catFolder := fun d c =>
    if c = "Composite" then
      if d = "20240101" then some [("a.xml", some sampleDocA)]
      else if d = "20240102" then some [("a.xml", some sampleDocA), ("b.xml", some sampleDocB)]
      else none
    else none
  reports := []

/-- Claim C1: in a merge of old index `o` and new index `n` with loaded prior
report `df` and snapshot dates `d1 < d2`, every name present in both indexes
whose files compare SAME yields exactly one NIL record dated by the prior
report when a row exists there and by the old snapshot date otherwise; a name
in both whose files compare DIFFERENT yields one UPDATED record dated `d2`; a
name only in `n` yields one NEW record dated `d2`; and a name only in `o`
yields one DELETED record with the carried (or old-snapshot) date. -/
theorem claim_C1 (o n : List (String × Option Elem)) (df : List (String × Option String))
    (d1 d2 nm : String) (ho : (o.map Prod.fst).Nodup) (hn : (n.map Prod.fst).Nodup) :
    (∀ dO dN, dictFind o nm = some dO → dictFind n nm = some dN →
      ((compare_xml_files dO dN = .SAME →
        (sortByName (mergeRecords o n df d1 d2)).filter (fun r => r.name == nm) =
          [⟨nm, carriedDate df nm d1, .NIL⟩]) ∧
       (compare_xml_files dO dN = .DIFFERENT →
        (sortByName (mergeRecords o n df d1 d2)).filter (fun r => r.name == nm) =
          [⟨nm, some d2, .UPDATED⟩]))) ∧
    ((dictFind n nm).isSome → dictFind o nm = none →
      (sortByName (mergeRecords o n df d1 d2)).filter (fun r => r.name == nm) =
        [⟨nm, some d2, .NEW⟩]) ∧
    ((dictFind o nm).isSome → dictFind n nm = none →
      (sortByName (mergeRecords o n df d1 d2)).filter (fun r => r.name == nm) =
        [⟨nm, carriedDate df nm d1, .DELETED⟩]) := by
  have hrf := report_filter o n df d1 d2 ho hn nm
  refine ⟨?_, ?_, ?_⟩
  · intro dO dN hO hN
    rw [hO, hN] at hrf
    constructor
    · intro hc
      rw [hrf]
      simp [classifyNewSide, hO, hc]
    · intro hc
      have hne : compare_xml_files dO dN ≠ .SAME := by rw [hc]; simp
      rw [hrf]
      simp [classifyNewSide, hO, hne]
  · intro hs ho0
    rcases Option.isSome_iff_exists.1 hs with ⟨v, hv⟩
    rw [hv, ho0] at hrf
    rw [hrf]
  · intro hs hn0
    rcases Option.isSome_iff_exists.1 hs with ⟨v, hv⟩
    rw [hn0, hv] at hrf
    rw [hrf]

theorem claim_C1_witness :
    (sortByName (mergeRecords [("A", some sampleDocA)] [("A", some sampleDocA)]
        [("A", some "2023-05-05")] "2024-01-01" "2024-01-02")).filter
        (fun r => r.name == "A") = [⟨"A", some "2023-05-05", .NIL⟩] :=
  (((claim_C1 [("A", some sampleDocA)] [("A", some sampleDocA)] [("A", some "2023-05-05")]
      "2024-01-01" "2024-01-02" "A" (by decide) (by decide)).1
      (some sampleDocA) (some sampleDocA) rfl rfl).1) rfl

/-- Claim C7: for any two indexes `A` and `B` merged with the same prior
report and dates, a name has a DELETED record when merging `A` (old) against
`B` (new) exactly when it has a NEW record when merging `B` (old) against `A`
(new). -/
theorem claim_C7 (A B : List (String × Option Elem)) (df : List (String × Option String))
    (d1 d2 nm : String) :
    (∃ r ∈ sortByName (mergeRecords A B df d1 d2), r.name = nm ∧ r.result = .DELETED) ↔
      (∃ r ∈ sortByName (mergeRecords B A df d1 d2), r.name = nm ∧ r.result = .NEW) := by
  have e1 : (∃ r ∈ sortByName (mergeRecords A B df d1 d2),
      r.name = nm ∧ r.result = .DELETED) ↔
      (∃ r ∈ mergeRecords A B df d1 d2, r.name = nm ∧ r.result = .DELETED) := by
    constructor <;> rintro ⟨r, hr, hp⟩
    · exact ⟨r, (List.perm_insertionSort _ _).mem_iff.1 hr, hp⟩
    · exact ⟨r, (List.perm_insertionSort _ _).mem_iff.2 hr, hp⟩
  have e2 : (∃ r ∈ sortByName (mergeRecords B A df d1 d2),
      r.name = nm ∧ r.result = .NEW) ↔
      (∃ r ∈ mergeRecords B A df d1 d2, r.name = nm ∧ r.result = .NEW) := by
    constructor <;> rintro ⟨r, hr, hp⟩
    · exact ⟨r, (List.perm_insertionSort _ _).mem_iff.1 hr, hp⟩
    · exact ⟨r, (List.perm_insertionSort _ _).mem_iff.2 hr, hp⟩
  rw [e1, e2, mem_merge_deleted A B df d1 d2 nm, mem_merge_new B A df d1 d2 nm]

/-- Claim C9: every report a successful run emits is sorted ascending by
entity name under the case-sensitive code-point order, and holds at most one
record per entity name. -/
theorem claim_C9 (report_type : String) (fs : FileSys) (rep : List Record)
    (h : compare_and_update report_type fs = some rep) :
    List.Sorted (fun r s => strLe r.name s.name = true) rep ∧
      ∀ nm, (rep.filter (fun r => r.name == nm)).length ≤ 1 := by
  rcases compare_eq_some_shape h with ⟨o, n, df, d1, d2, ho, hn, rfl⟩
  have hnames : ((sortByName (mergeRecords o n df d1 d2)).map Record.name).Nodup := by
    have hperm : ((sortByName (mergeRecords o n df d1 d2)).map Record.name).Perm
        ((mergeRecords o n df d1 d2).map Record.name) :=
      (List.perm_insertionSort _ _).map _
    exact hperm.nodup_iff.2 (merge_names_nodup o n df d1 d2 ho hn)
  exact ⟨List.sorted_insertionSort _ _, fun nm => count_le_one_of_names_nodup hnames nm⟩

theorem claim_C9_witness :
    List.Sorted (fun r s => strLe r.name s.name = true)
        ([⟨"A", some "2024-01-01", .NIL⟩, ⟨"B", some "2024-01-02", .NEW⟩] : List Record) ∧
      ∀ nm, (([⟨"A", some "2024-01-01", .NIL⟩, ⟨"B", some "2024-01-02", .NEW⟩] :
        List Record).filter (fun r => r.name == nm)).length ≤ 1 :=
  claim_C9 "Composite" sampleFs _ rfl

end CVDiff

namespace CVDiff

/-! ### Claims C8 and C10: self-comparison -/

/-- A parsable document whose root tag is `Id`; it carries a `Header/Name`
so it is indexed, yet its comparable string is `none`. -/
def idRootDoc : Elem :=
  .mk "Id" [] none none [.mk "Header" [] none none [.mk "Name" [] (some "A") none []]]

/-- A parsable document whose root tag is `Link`, same shape. -/
def linkRootDoc : Elem :=
  .mk "Link" [] none none [.mk "Header" [] none none [.mk "Name" [] (some "P1") none []]]

/-- Claim C8 as stated is false: comparing a snapshot folder against an
identical one does not always give UPDATED count 0 and NIL for every common
entity.  A folder holding one file whose root tag is `Id` indexes the entity
`A`, but the file compares DIFFERENT against itself (normalization drops the
root, `ET.tostring(None)` raises), so every re-run reports `A` as UPDATED and
the UPDATED count is 1, not 0. -/
theorem claim_C8_counterexample :
    get_all_xml_files_from_folder (some [("a.xml", some idRootDoc)]) =
        [("A", some idRootDoc)] ∧
      updatedCount (sortByName (mergeRecords [("A", some idRootDoc)]
        [("A", some idRootDoc)] [] "2024-01-01" "2024-01-02")) = 1 ∧
      sortByName (mergeRecords [("A", some idRootDoc)] [("A", some idRootDoc)]
        [] "2024-01-01" "2024-01-02") = [⟨"A", some "2024-01-02", .UPDATED⟩] :=
  ⟨rfl, rfl, rfl⟩

/-- Claim C8 amended: comparing a snapshot folder against an identical one
(the merge is a pure function, so repetition cannot change the outcome)
classifies NIL every common entity whose file has a comparable string, and
when every indexed file has one the UPDATED count is 0. -/
theorem claim_C8_amended (folder : List (String × Option Elem))
    (df : List (String × Option String)) (d1 d2 nm : String) (doc : Option Elem) :
    (dictFind (get_all_xml_files_from_folder (some folder)) nm = some doc →
      xml_to_comparable_string doc ≠ none →
      (sortByName (mergeRecords (get_all_xml_files_from_folder (some folder))
          (get_all_xml_files_from_folder (some folder)) df d1 d2)).filter
          (fun r => r.name == nm) =
        [⟨nm, carriedDate df nm d1, .NIL⟩]) ∧
    ((∀ p ∈ get_all_xml_files_from_folder (some folder),
        xml_to_comparable_string p.2 ≠ none) →
      updatedCount (sortByName (mergeRecords (get_all_xml_files_from_folder (some folder))
        (get_all_xml_files_from_folder (some folder)) df d1 d2)) = 0) := by
  have hnod := nodup_keys_get_all_xml_files (some folder)
  constructor
  · intro hfind hcomp
    have hrf := report_filter (get_all_xml_files_from_folder (some folder))
      (get_all_xml_files_from_folder (some folder)) df d1 d2 hnod hnod nm
    rw [hfind] at hrf
    rw [hrf]
    simp [classifyNewSide, hfind, compare_self hcomp]
  · intro hall
    have hlen : updatedCount (sortByName (mergeRecords
        (get_all_xml_files_from_folder (some folder))
        (get_all_xml_files_from_folder (some folder)) df d1 d2)) =
        updatedCount (mergeRecords (get_all_xml_files_from_folder (some folder))
          (get_all_xml_files_from_folder (some folder)) df d1 d2) :=
      ((List.perm_insertionSort _ _).filter _).length_eq
    rw [hlen]
    unfold updatedCount
    rw [List.length_eq_zero, List.filter_eq_nil_iff]
    intro r hr
    rcases List.mem_append.1 hr with hmem | hmem
    · rcases List.mem_map.1 hmem with ⟨p, hp, rfl⟩
      have hfind : dictFind (get_all_xml_files_from_folder (some folder)) p.1 = some p.2 :=
        dictFind_of_mem_nodup hnod (by rwa [Prod.mk.eta])
      have hsame := compare_self (hall p hp)
      simp [classifyNewSide, hfind, hsame]
    · rcases List.mem_filterMap.1 hmem with ⟨p, _, hc⟩
      rcases (classifyOldSide_eq_some _ df d1 p r).1 hc with ⟨_, rfl⟩
      simp

theorem claim_C8_witness :
    (sortByName (mergeRecords (get_all_xml_files_from_folder (some [("a.xml", some sampleDocA)]))
        (get_all_xml_files_from_folder (some [("a.xml", some sampleDocA)])) [] "2024-01-01"
        "2024-01-02")).filter (fun r => r.name == "A") =
      [⟨"A", some "2024-01-01", .NIL⟩] ∧
    updatedCount (sortByName (mergeRecords
        (get_all_xml_files_from_folder (some [("a.xml", some sampleDocA)]))
        (get_all_xml_files_from_folder (some [("a.xml", some sampleDocA)])) [] "2024-01-01"
        "2024-01-02")) = 0 :=
  ⟨(claim_C8_amended [("a.xml", some sampleDocA)] [] "2024-01-01" "2024-01-02" "A"
      (some sampleDocA)).1 rfl (by decide),
    (claim_C8_amended [("a.xml", some sampleDocA)] [] "2024-01-01" "2024-01-02" "A"
      (some sampleDocA)).2 (by decide)⟩

/-- Claim C10: a well-formed file whose root element is tagged `Link` (the
same holds for `Id`) normalizes to `none`, so the file compares DIFFERENT
against itself — SAME-comparison is not reflexive — yet its `Header/Name`
text `P1` contains neither `TEMP_` nor `*`, so the file is indexed, and
the (pure, hence run-independent) merge classifies it UPDATED. -/
theorem claim_C10 :
    strContainsSub "P1" "TEMP_" = false ∧ strContainsChar "P1" '*' = false ∧
      get_picture_name_from_xml (some linkRootDoc) = some "P1" ∧
      normalize_xml_element (remove_guid_from_value_tags linkRootDoc) = none ∧
      xml_to_comparable_string (some linkRootDoc) = none ∧
      compare_xml_files (some linkRootDoc) (some linkRootDoc) = .DIFFERENT ∧
      get_all_xml_files_from_folder (some [("p.xml", some linkRootDoc)]) =
        [("P1", some linkRootDoc)] ∧
      sortByName (mergeRecords [("P1", some linkRootDoc)] [("P1", some linkRootDoc)] []
        "2024-01-01" "2024-01-02") = [⟨"P1", some "2024-01-02", .UPDATED⟩] :=
  ⟨rfl, rfl, rfl, rfl, rfl, rfl, rfl, rfl⟩

end CVDiff

namespace CVDiff

/-! ### Claim C2: equality except inside ignored subtrees -/

mutual
/-- Formalizes C2's hypothesis, "identical except for content lying inside
subtrees rooted at an element tagged `Id` or `Link`": at a position where
both documents carry the same ignored tag, the attributes, text and children
below it are arbitrary (the tail of the element lies outside the subtree and
must agree); everywhere else tag, attributes, text, tail and the child lists
agree pointwise. -/
def normEqv : Elem → Elem → Bool
  | .mk t a tx tl cs, .mk t2 a2 tx2 tl2 cs2 =>
    if t ∈ ignore_tags then t2 == t && tl2 == tl
    else t2 == t && a2 == a && tx2 == tx && tl2 == tl && listNormEqv cs cs2

def listNormEqv : List Elem → List Elem → Bool
  | [], [] => true
  | c :: cs, c2 :: cs2 => normEqv c c2 && listNormEqv cs cs2
  | _, _ => false
end

theorem listNormEqv_normChildren :
    ∀ cs cs2 : List Elem,
      (∀ c ∈ cs, ∀ b, normEqv c b = true →
        normalize_xml_element (remove_guid_from_value_tags c) =
          normalize_xml_element (remove_guid_from_value_tags b)) →
      listNormEqv cs cs2 = true →
      normChildren (removeGuidChildren cs) = normChildren (removeGuidChildren cs2) := by
  intro cs
  induction cs with
  | nil =>
    intro cs2 _ h
    cases cs2 with
    | nil => rfl
    | cons c2 t2 => simp [listNormEqv] at h
  | cons c t ih =>
    intro cs2 hmem h
    cases cs2 with
    | nil => simp [listNormEqv] at h
    | cons c2 t2 =>
      simp only [listNormEqv, Bool.and_eq_true] at h
      have h1 := hmem c (by simp) c2 h.1
      have h2 := ih t2 (fun x hx => hmem x (List.mem_cons_of_mem c hx)) h.2
      simp only [removeGuidChildren, normChildren]
      rw [h1, h2]

theorem normEqv_norm_mask :
    ∀ a b : Elem, normEqv a b = true →
      normalize_xml_element (remove_guid_from_value_tags a) =
        normalize_xml_element (remove_guid_from_value_tags b) := by
  intro a
  induction a using Elem.inductionOn with
  | _ t a0 tx tl cs ih =>
    intro b hb
    obtain ⟨t2, a2, tx2, tl2, cs2⟩ := b
    by_cases hig : t ∈ ignore_tags
    · rw [normEqv] at hb
      rw [if_pos hig] at hb
      simp only [Bool.and_eq_true, beq_iff_eq] at hb
      obtain ⟨rfl, rfl⟩ := hb
      simp [remove_guid_from_value_tags, normalize_xml_element, hig]
    · rw [normEqv] at hb
      rw [if_neg hig] at hb
      simp only [Bool.and_eq_true, beq_iff_eq] at hb
      obtain ⟨⟨⟨⟨rfl, rfl⟩, rfl⟩, rfl⟩, hl⟩ := hb
      have hc := listNormEqv_normChildren cs cs2 ih hl
      simp only [remove_guid_from_value_tags, normalize_xml_element, if_neg hig]
      rw [hc]

/-- Claim C2 as stated is false: a pair of identical documents is in
particular "identical except for content inside `Id`/`Link` subtrees", yet
when the shared root tag is itself `Id` the comparison returns DIFFERENT,
not SAME. -/
theorem claim_C2_counterexample :
    normEqv (.mk "Id" [] (some "x") none []) (.mk "Id" [] (some "x") none []) = true ∧
      compare_xml_files (some (.mk "Id" [] (some "x") none []))
        (some (.mk "Id" [] (some "x") none [])) = .DIFFERENT :=
  ⟨rfl, rfl⟩

/-- Claim C2 amended: two well-formed documents identical except for content
inside subtrees rooted at `Id` or `Link`, whose shared root element is not
itself tagged `Id` or `Link`, compare SAME. -/
theorem claim_C2 (a b : Elem) (hroot : a.tag ∉ ignore_tags) (h : normEqv a b = true) :
    compare_xml_files (some a) (some b) = .SAME := by
  have hn := normEqv_norm_mask a b h
  obtain ⟨t, a0, tx, tl, cs⟩ := a
  have htag : t ∉ ignore_tags := hroot
  have hsome : ∃ nr, normalize_xml_element (remove_guid_from_value_tags (.mk t a0 tx tl cs)) =
      some nr := by
    simp [remove_guid_from_value_tags, normalize_xml_element, htag]
  rcases hsome with ⟨nr, hnr⟩
  have hnb : normalize_xml_element (remove_guid_from_value_tags b) = some nr := hn ▸ hnr
  have hca : xml_to_comparable_string (some (.mk t a0 tx tl cs)) =
      some ⟨pyStripList (collapseAux (serializeElem nr).data false)⟩ := by
    simp only [xml_to_comparable_string]
    rw [hnr]
  have hcb : xml_to_comparable_string (some b) =
      some ⟨pyStripList (collapseAux (serializeElem nr).data false)⟩ := by
    simp only [xml_to_comparable_string]
    rw [hnb]
  simp only [compare_xml_files]
  rw [hca, hcb]
  simp

theorem claim_C2_witness :
    compare_xml_files
        (some (.mk "R" [] none none [.mk "Id" [] (some "1") none []]))
        (some (.mk "R" [] none none [.mk "Id" [] (some "2") none []])) = .SAME :=
  claim_C2 (.mk "R" [] none none [.mk "Id" [] (some "1") none []])
    (.mk "R" [] none none [.mk "Id" [] (some "2") none []]) (by decide) (by decide)

end CVDiff

namespace CVDiff

/-! ### Claim C3: GUID masking -/

/-- Both texts present and both stripping to full GUID matches. -/
def guidTextPair : Option String → Option String → Bool
  | some s, some s2 => isGuidString (pyStrip s) && isGuidString (pyStrip s2)
  | _, _ => false

mutual
/-- Formalizes C3's hypothesis: the two documents agree on tag, attributes
and tail everywhere and their child lists correspond pointwise; at each
position the texts either agree or the shared tag is `Value` and both texts
strip to full GUID matches. -/
def guidEqv : Elem → Elem → Bool
  | .mk t a tx tl cs, .mk t2 a2 tx2 tl2 cs2 =>
    t2 == t && a2 == a && tl2 == tl && listGuidEqv cs cs2 &&
      (tx2 == tx || (t == "Value" && guidTextPair tx tx2))

def listGuidEqv : List Elem → List Elem → Bool
  | [], [] => true
  | c :: cs, c2 :: cs2 => guidEqv c c2 && listGuidEqv cs cs2
  | _, _ => false
end

theorem isGuidString_ne_empty {s : String} (h : isGuidString (pyStrip s) = true) :
    s ≠ "" := by
  intro he
  rw [he] at h
  exact absurd h (by decide)

theorem maskGuidText_guid {s : String} (h : isGuidString (pyStrip s) = true) :
    maskGuidText "Value" (some s) = some "GUID_PLACEHOLDER" := by
  unfold maskGuidText
  have ht : optTextTruthy (some s) = true := by
    simp [optTextTruthy, isGuidString_ne_empty h]
  rw [if_pos]
  simp [ht, h]

theorem listGuidEqv_mask :
    ∀ cs cs2 : List Elem,
      (∀ c ∈ cs, ∀ b, guidEqv c b = true →
        remove_guid_from_value_tags c = remove_guid_from_value_tags b) →
      listGuidEqv cs cs2 = true →
      removeGuidChildren cs = removeGuidChildren cs2 := by
  intro cs
  induction cs with
  | nil =>
    intro cs2 _ h
    cases cs2 with
    | nil => rfl
    | cons c2 t2 => simp [listGuidEqv] at h
  | cons c t ih =>
    intro cs2 hmem h
    cases cs2 with
    | nil => simp [listGuidEqv] at h
    | cons c2 t2 =>
      simp only [listGuidEqv, Bool.and_eq_true] at h
      have h1 := hmem c (by simp) c2 h.1
      have h2 := ih t2 (fun x hx => hmem x (List.mem_cons_of_mem c hx)) h.2
      simp only [removeGuidChildren]
      rw [h1, h2]

theorem guidEqv_mask :
    ∀ a b : Elem, guidEqv a b = true →
      remove_guid_from_value_tags a = remove_guid_from_value_tags b := by
  intro a
  induction a using Elem.inductionOn with
  | _ t a0 tx tl cs ih =>
    intro b hb
    obtain ⟨t2, a2, tx2, tl2, cs2⟩ := b
    rw [guidEqv] at hb
    rw [Bool.and_eq_true, Bool.and_eq_true, Bool.and_eq_true, Bool.and_eq_true] at hb
    obtain ⟨⟨⟨⟨h1, h2⟩, h3⟩, hl⟩, htx⟩ := hb
    rw [beq_iff_eq] at h1 h2 h3
    subst h1
    subst h2
    subst h3
    have hch := listGuidEqv_mask cs cs2 ih hl
    simp only [remove_guid_from_value_tags]
    rw [hch]
    rw [Bool.or_eq_true] at htx
    rcases htx with he | hg
    · rw [beq_iff_eq] at he
      subst he
      rfl
    · rw [Bool.and_eq_true] at hg
      obtain ⟨ht, hm⟩ := hg
      rw [beq_iff_eq] at ht
      subst ht
      cases tx with
      | none => cases tx2 <;> simp [guidTextPair] at hm
      | some s =>
        cases tx2 with
        | none => simp [guidTextPair] at hm
        | some s2 =>
          rw [show guidTextPair (some s) (some s2) =
              (isGuidString (pyStrip s) && isGuidString (pyStrip s2)) from rfl,
            Bool.and_eq_true] at hm
          rw [maskGuidText_guid hm.1, maskGuidText_guid hm.2]

/-- Claim C3 as stated is false: two documents whose shared root tag is `Id`
and which differ only in the GUID text of a `Value` child compare DIFFERENT,
because normalization drops the root and both comparable strings are `none`. -/
theorem claim_C3_counterexample :
    guidEqv
        (.mk "Id" [] none none
          [.mk "Value" [] (some "123e4567-e89b-12d3-a456-426614174000") none []])
        (.mk "Id" [] none none
          [.mk "Value" [] (some "ABCDEF00-1111-2222-3333-444455556666") none []]) = true ∧
      compare_xml_files
        (some (.mk "Id" [] none none
          [.mk "Value" [] (some "123e4567-e89b-12d3-a456-426614174000") none []]))
        (some (.mk "Id" [] none none
          [.mk "Value" [] (some "ABCDEF00-1111-2222-3333-444455556666") none []])) =
        .DIFFERENT :=
  ⟨rfl, rfl⟩

/-- Claim C3 amended: two well-formed documents that differ only in the text
of `Value` elements, each such text stripping to a full case-insensitive
8-4-4-4-12 UUID match, compare SAME provided the shared root element is not
itself tagged `Id` or `Link` (both texts are replaced by the same fixed
placeholder before comparison). -/
theorem claim_C3 (a b : Elem) (hroot : a.tag ∉ ignore_tags) (h : guidEqv a b = true) :
    compare_xml_files (some a) (some b) = .SAME := by
  have hm := guidEqv_mask a b h
  obtain ⟨t, a0, tx, tl, cs⟩ := a
  have htag : t ∉ ignore_tags := hroot
  have hsome : ∃ nr,
      normalize_xml_element (remove_guid_from_value_tags (.mk t a0 tx tl cs)) = some nr := by
    simp [remove_guid_from_value_tags, normalize_xml_element, htag]
  rcases hsome with ⟨nr, hnr⟩
  have hnb : normalize_xml_element (remove_guid_from_value_tags b) = some nr := by
    rw [← hm]
    exact hnr
  have hca : xml_to_comparable_string (some (.mk t a0 tx tl cs)) =
      some ⟨pyStripList (collapseAux (serializeElem nr).data false)⟩ := by
    simp only [xml_to_comparable_string]
    rw [hnr]
  have hcb : xml_to_comparable_string (some b) =
      some ⟨pyStripList (collapseAux (serializeElem nr).data false)⟩ := by
    simp only [xml_to_comparable_string]
    rw [hnb]
  simp only [compare_xml_files]
  rw [hca, hcb]
  simp

theorem claim_C3_witness :
    compare_xml_files
        (some (.mk "R" [] none none
          [.mk "Value" [] (some "123e4567-e89b-12d3-a456-426614174000") none []]))
        (some (.mk "R" [] none none
          [.mk "Value" [] (some "ABCDEF00-1111-2222-3333-444455556666") none []])) = .SAME :=
  claim_C3
    (.mk "R" [] none none
      [.mk "Value" [] (some "123e4567-e89b-12d3-a456-426614174000") none []])
    (.mk "R" [] none none
      [.mk "Value" [] (some "ABCDEF00-1111-2222-3333-444455556666") none []])
    (by decide) (by decide)

end CVDiff

namespace CVDiff

/-! ### Claim C4: date normalization and carry-forward -/

theorem validDate_bounds {y m d : Nat} (h : validDate y m d = true) :
    1 ≤ y ∧ y ≤ 9999 ∧ 1 ≤ m ∧ m ≤ 12 ∧ 1 ≤ d ∧ d ≤ 31 := by
  unfold validDate at h
  simp only [Bool.and_eq_true, decide_eq_true_eq] at h
  obtain ⟨⟨⟨⟨⟨h1, h2⟩, h3⟩, h4⟩, h5⟩, h6⟩ := h
  have h31 : daysInMonth y m ≤ 31 := by
    unfold daysInMonth
    split_ifs <;> omega
  exact ⟨h1, h2, h3, h4, h5, le_trans h6 h31⟩

theorem digitChar_toNat {k : Nat} (h : k < 10) : (digitChar k).toNat = 48 + k := by
  interval_cases k <;> decide

theorem digitChar_isDigit {k : Nat} (h : k < 10) : (digitChar k).isDigit = true := by
  interval_cases k <;> decide

theorem digitChar_ne_slash {k : Nat} (h : k < 10) : digitChar k ≠ '/' := by
  interval_cases k <;> decide

theorem digitChar_ne_dash {k : Nat} (h : k < 10) : digitChar k ≠ '-' := by
  interval_cases k <;> decide

theorem natOfDigits_pad2 {n : Nat} (h : n < 100) : natOfDigits (pad2 n).data = n := by
  show natOfDigits [digitChar (n / 10 % 10), digitChar (n % 10)] = n
  simp only [natOfDigits, digitChar_toNat (show n / 10 % 10 < 10 by omega),
    digitChar_toNat (show n % 10 < 10 by omega), List.length_cons, List.length_nil]
  omega

theorem natOfDigits_pad4 {n : Nat} (h : n < 10000) : natOfDigits (pad4 n).data = n := by
  show natOfDigits [digitChar (n / 1000 % 10), digitChar (n / 100 % 10),
    digitChar (n / 10 % 10), digitChar (n % 10)] = n
  simp only [natOfDigits, digitChar_toNat (show n / 1000 % 10 < 10 by omega),
    digitChar_toNat (show n / 100 % 10 < 10 by omega),
    digitChar_toNat (show n / 10 % 10 < 10 by omega),
    digitChar_toNat (show n % 10 < 10 by omega), List.length_cons, List.length_nil]
  omega

theorem mem_pad2 {n : Nat} {c : Char} (h : c ∈ (pad2 n).data) :
    ∃ k, k < 10 ∧ c = digitChar k := by
  have hd : (pad2 n).data = [digitChar (n / 10 % 10), digitChar (n % 10)] := rfl
  rw [hd] at h
  rcases List.mem_cons.1 h with rfl | h
  · exact ⟨_, by omega, rfl⟩
  rcases List.mem_cons.1 h with rfl | h
  · exact ⟨_, by omega, rfl⟩
  · simp at h

theorem mem_pad4 {n : Nat} {c : Char} (h : c ∈ (pad4 n).data) :
    ∃ k, k < 10 ∧ c = digitChar k := by
  have hd : (pad4 n).data = [digitChar (n / 1000 % 10), digitChar (n / 100 % 10),
      digitChar (n / 10 % 10), digitChar (n % 10)] := rfl
  rw [hd] at h
  rcases List.mem_cons.1 h with rfl | h
  · exact ⟨_, by omega, rfl⟩
  rcases List.mem_cons.1 h with rfl | h
  · exact ⟨_, by omega, rfl⟩
  rcases List.mem_cons.1 h with rfl | h
  · exact ⟨_, by omega, rfl⟩
  rcases List.mem_cons.1 h with rfl | h
  · exact ⟨_, by omega, rfl⟩
  · simp at h

theorem splitCh_not_mem {sep : Char} : ∀ l : List Char, sep ∉ l → splitCh sep l = [l] := by
  intro l
  induction l with
  | nil => intro _; rfl
  | cons c cs ih =>
    intro h
    have hc : ¬ c = sep := fun he => h (he ▸ List.mem_cons_self c cs)
    have hcs : sep ∉ cs := fun hm => h (List.mem_cons_of_mem c hm)
    rw [splitCh, if_neg hc, ih hcs]

theorem splitCh_append {sep : Char} :
    ∀ l1 l2 : List Char, sep ∉ l1 → splitCh sep (l1 ++ sep :: l2) = l1 :: splitCh sep l2 := by
  intro l1
  induction l1 with
  | nil =>
    intro l2 _
    rw [List.nil_append, splitCh, if_pos rfl]
  | cons c cs ih =>
    intro l2 h
    have hc : ¬ c = sep := fun he => h (he ▸ List.mem_cons_self c cs)
    have hcs : sep ∉ cs := fun hm => h (List.mem_cons_of_mem c hm)
    rw [List.cons_append, splitCh, if_neg hc, ih l2 hcs]

theorem parseYmdParts_format {y m d : Nat} (h : validDate y m d = true) :
    parseYmdParts (pad4 y).data (pad2 m).data (pad2 d).data = some ⟨y, m, d⟩ := by
  obtain ⟨h1, h2, h3, h4, h5, h6⟩ := validDate_bounds h
  have hall4 : (pad4 y).data.all Char.isDigit = true := by
    show ([digitChar (y / 1000 % 10), digitChar (y / 100 % 10), digitChar (y / 10 % 10),
      digitChar (y % 10)]).all Char.isDigit = true
    simp [digitChar_isDigit (show y / 1000 % 10 < 10 by omega),
      digitChar_isDigit (show y / 100 % 10 < 10 by omega),
      digitChar_isDigit (show y / 10 % 10 < 10 by omega),
      digitChar_isDigit (show y % 10 < 10 by omega)]
  have hallm : (pad2 m).data.all Char.isDigit = true := by
    show ([digitChar (m / 10 % 10), digitChar (m % 10)]).all Char.isDigit = true
    simp [digitChar_isDigit (show m / 10 % 10 < 10 by omega),
      digitChar_isDigit (show m % 10 < 10 by omega)]
  have halld : (pad2 d).data.all Char.isDigit = true := by
    show ([digitChar (d / 10 % 10), digitChar (d % 10)]).all Char.isDigit = true
    simp [digitChar_isDigit (show d / 10 % 10 < 10 by omega),
      digitChar_isDigit (show d % 10 < 10 by omega)]
  have hlen4 : (pad4 y).data.length = 4 := rfl
  have hlenm : (pad2 m).data.length = 2 := rfl
  have hlend : (pad2 d).data.length = 2 := rfl
  unfold parseYmdParts
  rw [natOfDigits_pad4 (show y < 10000 by omega), natOfDigits_pad2 (show m < 100 by omega),
    natOfDigits_pad2 (show d < 100 by omega), hlen4, hlenm, hlend, hall4, hallm, halld, h]
  simp

theorem parse_format_dmy {y m d : Nat} (h : validDate y m d = true) :
    parseDayMonthYear (pad2 d ++ "/" ++ pad2 m ++ "/" ++ pad4 y) = some ⟨y, m, d⟩ := by
  have hd2 : '/' ∉ (pad2 d).data := by
    intro hm2
    rcases mem_pad2 hm2 with ⟨k, hk, he⟩
    exact digitChar_ne_slash hk he.symm
  have hm2 : '/' ∉ (pad2 m).data := by
    intro hmm
    rcases mem_pad2 hmm with ⟨k, hk, he⟩
    exact digitChar_ne_slash hk he.symm
  have hy4 : '/' ∉ (pad4 y).data := by
    intro hmy
    rcases mem_pad4 hmy with ⟨k, hk, he⟩
    exact digitChar_ne_slash hk he.symm
  have hdata : (pad2 d ++ "/" ++ pad2 m ++ "/" ++ pad4 y).data =
      (pad2 d).data ++ '/' :: ((pad2 m).data ++ '/' :: (pad4 y).data) := by
    simp [String.data_append]
  unfold parseDayMonthYear
  rw [hdata, splitCh_append _ _ hd2, splitCh_append _ _ hm2, splitCh_not_mem _ hy4]
  exact parseYmdParts_format h

theorem slash_not_mem_formatIso (dt : Date) : '/' ∉ (formatIsoDate dt).data := by
  intro hmem
  have hdata : (formatIsoDate dt).data =
      (pad4 dt.y).data ++ '-' :: ((pad2 dt.m).data ++ '-' :: (pad2 dt.d).data) := by
    simp [formatIsoDate, String.data_append]
  rw [hdata] at hmem
  rcases List.mem_append.1 hmem with h | h
  · rcases mem_pad4 h with ⟨k, hk, he⟩
    exact digitChar_ne_slash hk he.symm
  rcases List.mem_cons.1 h with he | h
  · exact absurd he (by decide)
  rcases List.mem_append.1 h with h | h
  · rcases mem_pad2 h with ⟨k, hk, he⟩
    exact digitChar_ne_slash hk he.symm
  rcases List.mem_cons.1 h with he | h
  · exact absurd he (by decide)
  · rcases mem_pad2 h with ⟨k, hk, he⟩
    exact digitChar_ne_slash hk he.symm

theorem parseDayMonthYear_formatIso (dt : Date) :
    parseDayMonthYear (formatIsoDate dt) = none := by
  unfold parseDayMonthYear
  rw [splitCh_not_mem _ (slash_not_mem_formatIso dt)]

theorem parse_format_iso {y m d : Nat} (h : validDate y m d = true) :
    parseIsoDate (formatIsoDate ⟨y, m, d⟩) = some ⟨y, m, d⟩ := by
  have hm2 : '-' ∉ (pad2 m).data := by
    intro hmm
    rcases mem_pad2 hmm with ⟨k, hk, he⟩
    exact digitChar_ne_dash hk he.symm
  have hd2 : '-' ∉ (pad2 d).data := by
    intro hmd
    rcases mem_pad2 hmd with ⟨k, hk, he⟩
    exact digitChar_ne_dash hk he.symm
  have hy4 : '-' ∉ (pad4 y).data := by
    intro hmy
    rcases mem_pad4 hmy with ⟨k, hk, he⟩
    exact digitChar_ne_dash hk he.symm
  have hdata : (formatIsoDate ⟨y, m, d⟩).data =
      (pad4 y).data ++ '-' :: ((pad2 m).data ++ '-' :: (pad2 d).data) := by
    simp [formatIsoDate, String.data_append]
  unfold parseIsoDate
  rw [hdata, splitCh_append _ _ hy4, splitCh_append _ _ hm2, splitCh_not_mem _ hd2]
  exact parseYmdParts_format h

theorem parseYmdParts_valid {ys ms ds : List Char} {dt : Date}
    (h : parseYmdParts ys ms ds = some dt) : validDate dt.y dt.m dt.d = true := by
  unfold parseYmdParts at h
  split_ifs at h with h1 h2
  · obtain rfl := Option.some_inj.1 h.symm
    exact h2

theorem parseDayMonthYear_valid {s : String} {dt : Date}
    (h : parseDayMonthYear s = some dt) : validDate dt.y dt.m dt.d = true := by
  unfold parseDayMonthYear at h
  split at h
  · exact parseYmdParts_valid h
  · cases h

theorem parseIsoDate_valid {s : String} {dt : Date}
    (h : parseIsoDate s = some dt) : validDate dt.y dt.m dt.d = true := by
  unfold parseIsoDate at h
  split at h
  · exact parseYmdParts_valid h
  · cases h

theorem convert_date_some (s : String) :
    convert_date (some s) =
      match parseDayMonthYear s with
      | some dt => some (formatIsoDate dt)
      | none =>
        match parseIsoDate s with
        | some dt => some (formatIsoDate dt)
        | none => none := rfl

theorem convert_date_canonical {s r : String} (h : convert_date (some s) = some r) :
    ∃ y m d, validDate y m d = true ∧ r = formatIsoDate ⟨y, m, d⟩ := by
  rw [convert_date_some] at h
  cases hp : parseDayMonthYear s with
  | some dt =>
    rw [hp] at h
    exact ⟨dt.y, dt.m, dt.d, parseDayMonthYear_valid hp, (Option.some_inj.1 h).symm⟩
  | none =>
    rw [hp] at h
    cases hq : parseIsoDate s with
    | some dt =>
      rw [hq] at h
      exact ⟨dt.y, dt.m, dt.d, parseIsoDate_valid hq, (Option.some_inj.1 h).symm⟩
    | none =>
      rw [hq] at h
      cases h

/-- Claim C4 as stated is false: an unparseable stored date becomes null, but
a record carrying a null date does NOT fall back to the snapshot date — the
fallback happens only when no row for the entity exists at all.  With a prior
report row `("A", "banana")`, entity `A` unchanged between snapshots dated
2024-01-01 and 2024-01-02, the emitted NIL record carries a null date, not
the snapshot date. -/
theorem claim_C4_counterexample :
    convert_date (some "banana") = none ∧
      sortByName (mergeRecords [("A", some sampleDocA)] [("A", some sampleDocA)]
        ([("A", some "banana")].map fun p => (p.1, convert_date p.2))
        "2024-01-01" "2024-01-02") = [⟨"A", none, .NIL⟩] ∧
      (none : Option String) ≠ some "2024-01-01" :=
  ⟨rfl, rfl, by decide⟩

/-- Claim C4 amended: carried dates are normalized to the canonical ISO form
(the two incoming formats day/month/year and year-month-day are accepted, and
every successful conversion is of ISO shape); ambiguous or unparseable values
become null; and the snapshot-date fallback applies exactly when the prior
report has no row for the entity — a row whose converted date is null is
carried with a null date. -/
theorem claim_C4 (y m d : Nat) (s fb nm : String) (df : List (String × Option String)) :
    (validDate y m d = true →
      convert_date (some (pad2 d ++ "/" ++ pad2 m ++ "/" ++ pad4 y)) =
        some (formatIsoDate ⟨y, m, d⟩)) ∧
    (validDate y m d = true →
      convert_date (some (formatIsoDate ⟨y, m, d⟩)) = some (formatIsoDate ⟨y, m, d⟩)) ∧
    (∀ r, convert_date (some s) = some r →
      ∃ y2 m2 d2, validDate y2 m2 d2 = true ∧ r = formatIsoDate ⟨y2, m2, d2⟩) ∧
    convert_date none = none ∧
    (df.filter (fun p => p.1 = nm) = [] → carriedDate df nm fb = some fb) ∧
    (∀ q rest, df.filter (fun p => p.1 = nm) = q :: rest → carriedDate df nm fb = q.2) := by
  refine ⟨?_, ?_, fun r hr => convert_date_canonical hr, rfl, ?_, ?_⟩
  · intro hv
    rw [convert_date_some, parse_format_dmy hv]
  · intro hv
    rw [convert_date_some, parseDayMonthYear_formatIso, parse_format_iso hv]
  · intro he
    unfold carriedDate
    rw [he]
  · intro q rest he
    unfold carriedDate
    rw [he]

theorem claim_C4_witness :
    convert_date (some (pad2 31 ++ "/" ++ pad2 12 ++ "/" ++ pad4 2020)) =
        some (formatIsoDate ⟨2020, 12, 31⟩) ∧
      convert_date (some (formatIsoDate ⟨2020, 12, 31⟩)) =
        some (formatIsoDate ⟨2020, 12, 31⟩) ∧
      carriedDate [("A", some "banana")] "B" "2024-01-01" = some "2024-01-01" :=
  ⟨(claim_C4 2020 12 31 "x" "2024-01-01" "B" [("A", some "banana")]).1 (by decide),
    (claim_C4 2020 12 31 "x" "2024-01-01" "B" [("A", some "banana")]).2.1 (by decide),
    (claim_C4 2020 12 31 "x" "2024-01-01" "B" [("A", some "banana")]).2.2.2.2.1 (by decide)⟩

end CVDiff

namespace CVDiff

/-! ### Claim C5: selection of the freshest prior report -/

theorem dateLtb_eq_true_iff (a b : Date) :
    dateLtb a b = true ↔
      (a.y < b.y ∨ (a.y = b.y ∧ (a.m < b.m ∨ (a.m = b.m ∧ a.d < b.d)))) := by
  simp [dateLtb]

theorem dateLtb_eq_false_iff (a b : Date) :
    dateLtb a b = false ↔
      ¬ (a.y < b.y ∨ (a.y = b.y ∧ (a.m < b.m ∨ (a.m = b.m ∧ a.d < b.d)))) := by
  rw [← dateLtb_eq_true_iff, Bool.eq_false_iff]

theorem dateLtb_irrefl (a : Date) : dateLtb a a = false := by
  rw [dateLtb_eq_false_iff]
  omega

theorem dateLtb_ge_of_lt_ge {a dt d : Date} (h1 : dateLtb a dt = true)
    (h2 : dateLtb d dt = false) : dateLtb d a = false := by
  rw [dateLtb_eq_true_iff] at h1
  rw [dateLtb_eq_false_iff] at h2 ⊢
  omega

theorem dateLtb_ge_trans {d a dc : Date} (h1 : dateLtb d a = false)
    (h2 : dateLtb a dc = false) : dateLtb d dc = false := by
  rw [dateLtb_eq_false_iff] at h1 h2 ⊢
  omega

theorem findLatestAux_ge (reports : List (String × ReportFile)) (base : String) :
    ∀ (days : List String) (g : String) (a : Date) (f : String) (d : Date),
      findLatestAux reports base days (some (g, a)) = some (f, d) →
      dateLtb d a = false := by
  intro days
  induction days with
  | nil =>
    intro g a f d h
    simp only [findLatestAux, Option.some_inj, Prod.mk.injEq] at h
    obtain ⟨rfl, rfl⟩ := h
    exact dateLtb_irrefl a
  | cons day rest ih =>
    intro g a f d h
    simp only [findLatestAux] at h
    cases hc : fileCandidate reports base day with
    | none =>
      rw [hc] at h
      exact ih g a f d h
    | some dt =>
      rw [hc] at h
      simp only at h
      by_cases hlt : dateLtb a dt = true
      · rw [if_pos hlt] at h
        exact dateLtb_ge_of_lt_ge hlt (ih _ dt f d h)
      · rw [if_neg hlt] at h
        exact ih g a f d h

theorem findLatestAux_notLt (reports : List (String × ReportFile)) (base : String) :
    ∀ (days : List String) (acc : Option (String × Date)) (f : String) (d : Date),
      findLatestAux reports base days acc = some (f, d) →
      ∀ day ∈ days, ∀ dc, fileCandidate reports base day = some dc →
        dateLtb d dc = false := by
  intro days
  induction days with
  | nil =>
    intro acc f d _ day hday
    simp at hday
  | cons day0 rest ih =>
    intro acc f d h day hday dc hdc
    rcases List.mem_cons.1 hday with rfl | hmem
    · simp only [findLatestAux, hdc] at h
      cases acc with
      | none =>
        simp only at h
        exact findLatestAux_ge reports base rest _ dc f d h
      | some best =>
        obtain ⟨g, a⟩ := best
        simp only at h
        by_cases hlt : dateLtb a dc = true
        · rw [if_pos hlt] at h
          exact findLatestAux_ge reports base rest _ dc f d h
        · rw [if_neg hlt] at h
          have hda := findLatestAux_ge reports base rest g a f d h
          exact dateLtb_ge_trans hda (Bool.eq_false_iff.2 hlt)
    · cases hc : fileCandidate reports base day0 with
      | none =>
        simp only [findLatestAux, hc] at h
        exact ih acc f d h day hmem dc hdc
      | some dt =>
        cases acc with
        | none =>
          simp only [findLatestAux, hc] at h
          exact ih _ f d h day hmem dc hdc
        | some best =>
          obtain ⟨g, a⟩ := best
          simp only [findLatestAux, hc] at h
          by_cases hlt : dateLtb a dt = true
          · rw [if_pos hlt] at h
            exact ih _ f d h day hmem dc hdc
          · rw [if_neg hlt] at h
            exact ih _ f d h day hmem dc hdc

theorem findLatestAux_mem (reports : List (String × ReportFile)) (base : String) :
    ∀ (days : List String) (acc : Option (String × Date)) (f : String) (d : Date),
      findLatestAux reports base days acc = some (f, d) →
      acc = some (f, d) ∨
        ∃ day ∈ days, f = reportCsvName base day ∧
          fileCandidate reports base day = some d := by
  intro days
  induction days with
  | nil =>
    intro acc f d h
    exact Or.inl h
  | cons day0 rest ih =>
    intro acc f d h
    cases hc : fileCandidate reports base day0 with
    | none =>
      simp only [findLatestAux, hc] at h
      rcases ih acc f d h with h2 | ⟨day, hday, he, hcand⟩
      · exact Or.inl h2
      · exact Or.inr ⟨day, List.mem_cons_of_mem day0 hday, he, hcand⟩
    | some dt =>
      cases acc with
      | none =>
        simp only [findLatestAux, hc] at h
        rcases ih _ f d h with h2 | ⟨day, hday, he, hcand⟩
        · simp only [Option.some_inj, Prod.mk.injEq] at h2
          obtain ⟨rfl, rfl⟩ := h2
          exact Or.inr ⟨day0, List.mem_cons_self day0 rest, rfl, hc⟩
        · exact Or.inr ⟨day, List.mem_cons_of_mem day0 hday, he, hcand⟩
      | some best =>
        obtain ⟨g, a⟩ := best
        simp only [findLatestAux, hc] at h
        by_cases hlt : dateLtb a dt = true
        · rw [if_pos hlt] at h
          rcases ih _ f d h with h2 | ⟨day, hday, he, hcand⟩
          · simp only [Option.some_inj, Prod.mk.injEq] at h2
            obtain ⟨rfl, rfl⟩ := h2
            exact Or.inr ⟨day0, List.mem_cons_self day0 rest, rfl, hc⟩
          · exact Or.inr ⟨day, List.mem_cons_of_mem day0 hday, he, hcand⟩
        · rw [if_neg hlt] at h
          rcases ih _ f d h with h2 | ⟨day, hday, he, hcand⟩
          · exact Or.inl h2
          · exact Or.inr ⟨day, List.mem_cons_of_mem day0 hday, he, hcand⟩

/-- The rows of the weekday files of the counterexample below.  `Mon` holds
the chronologically latest date 2021-01-02, but its lexicographically maximal
date string is `"31/12/2020"`. -/
def monFile : ReportFile := ⟨[("X", some "31/12/2020"), ("Y", some "02/01/2021")]⟩

def tueFile : ReportFile := ⟨[("Z", some "01/01/2021")]⟩

def cexReports : List (String × ReportFile) :=
  [("CompositeView_Diff_Mon.csv", monFile), ("CompositeView_Diff_Tue.csv", tueFile)]

/-- The claim's reading of "maximum recorded Last_Update_Date value
chronologically most recent": the chronologically latest parsed date among a
file's non-null recorded dates. -/
def chronoMaxDate (file : ReportFile) : Option Date :=
  (file.rows.filterMap fun p => p.2.bind parseReportDate).foldl
    (fun acc dt =>
      match acc with
      | none => some dt
      | some b => if dateLtb b dt then some dt else some b)
    none

/-- Claim C5 as stated is false: the program takes the pandas string maximum
(code-point lexicographic) of each file's date column and only then parses it,
so a file whose chronological maximum is the most recent can lose.  `Mon`
holds dates up to 2021-01-02 but its lexicographic maximum parses to
2020-12-31, so the chronologically staler `Tue` (2021-01-01) is selected. -/
theorem claim_C5_counterexample :
    chronoMaxDate monFile = some ⟨2021, 1, 2⟩ ∧
      chronoMaxDate tueFile = some ⟨2021, 1, 1⟩ ∧
      dateLtb ⟨2021, 1, 1⟩ ⟨2021, 1, 2⟩ = true ∧
      find_latest_diffreport_csv cexReports "Composite" =
        some "CompositeView_Diff_Tue.csv" ∧
      "CompositeView_Diff_Tue.csv" ≠ "CompositeView_Diff_Mon.csv" := by
  refine ⟨rfl, rfl, rfl, rfl, ?_⟩
  decide

/-- Claim C5 amended: among the weekday-tagged report files present, the
loader returns a file whose lexicographically maximal recorded date string,
parsed as day/month/year when it contains a slash and as year-month-day
otherwise, is chronologically no earlier than that of every other qualifying
weekday file (files' modification times play no role in the model or the
code). -/
theorem claim_C5 (reports : List (String × ReportFile)) (report_type f : String)
    (h : find_latest_diffreport_csv reports report_type = some f) :
    ∃ day ∈ weekdays, f = reportCsvName (baseFilename report_type) day ∧
      ∃ dt, fileCandidate reports (baseFilename report_type) day = some dt ∧
        ∀ day2 ∈ weekdays, ∀ dc,
          fileCandidate reports (baseFilename report_type) day2 = some dc →
          dateLtb dt dc = false := by
  unfold find_latest_diffreport_csv at h
  cases haux : findLatestAux reports (baseFilename report_type) weekdays none with
  | none => rw [haux] at h; cases h
  | some pr =>
    obtain ⟨g, d⟩ := pr
    rw [haux] at h
    obtain rfl : g = f := by simpa using h
    rcases findLatestAux_mem reports (baseFilename report_type) weekdays none g d haux with
      hacc | ⟨day, hday, he, hcand⟩
    · cases hacc
    · exact ⟨day, hday, he, d, hcand, fun day2 hd2 dc hdc =>
        findLatestAux_notLt reports (baseFilename report_type) weekdays none g d haux
          day2 hd2 dc hdc⟩

theorem claim_C5_witness :
    ∃ day ∈ weekdays,
      "CompositeView_Diff_Tue.csv" = reportCsvName (baseFilename "Composite") day ∧
      ∃ dt, fileCandidate cexReports (baseFilename "Composite") day = some dt ∧
        ∀ day2 ∈ weekdays, ∀ dc,
          fileCandidate cexReports (baseFilename "Composite") day2 = some dc →
          dateLtb dt dc = false :=
  claim_C5 cexReports "Composite" _ rfl

end CVDiff

namespace CVDiff

/-! ### Claim C6: digit strings, chronological order, folder resolution -/

theorem isDigit_toNat {c : Char} (h : c.isDigit = true) :
    48 ≤ c.toNat ∧ c.toNat ≤ 57 := by
  simp only [Char.isDigit, Bool.and_eq_true, decide_eq_true_eq] at h
  exact h

theorem natOfDigits_lt_pow :
    ∀ cs : List Char, (∀ c ∈ cs, c.isDigit = true) → natOfDigits cs < 10 ^ cs.length := by
  intro cs
  induction cs with
  | nil => intro _; simp [natOfDigits]
  | cons c t ih =>
    intro hall
    have hc := isDigit_toNat (hall c (List.mem_cons_self c t))
    have hv := ih fun x hx => hall x (List.mem_cons_of_mem c hx)
    have h9 : c.toNat - 48 ≤ 9 := by omega
    have hm : (c.toNat - 48) * 10 ^ t.length ≤ 9 * 10 ^ t.length :=
      Nat.mul_le_mul_right _ h9
    simp only [natOfDigits, List.length_cons, pow_succ]
    omega

theorem charListLe_natOfDigits_le :
    ∀ cs ds : List Char, cs.length = ds.length →
      (∀ c ∈ cs, c.isDigit = true) → (∀ c ∈ ds, c.isDigit = true) →
      charListLe cs ds = true → natOfDigits cs ≤ natOfDigits ds := by
  intro cs
  induction cs with
  | nil => intro ds _ _ _ _; simp [natOfDigits]
  | cons a as ih =>
    intro ds hlen hca hcd h
    cases ds with
    | nil => simp at hlen
    | cons b bs =>
      have hlen2 : as.length = bs.length := by
        simpa using hlen
      have ha := isDigit_toNat (hca a (List.mem_cons_self a as))
      have hb := isDigit_toNat (hcd b (List.mem_cons_self b bs))
      have hva : natOfDigits as < 10 ^ as.length :=
        natOfDigits_lt_pow as fun x hx => hca x (List.mem_cons_of_mem a hx)
      simp only [charListLe] at h
      by_cases h1 : a.toNat < b.toNat
      · have hstep : (a.toNat - 48 + 1) * 10 ^ bs.length ≤ (b.toNat - 48) * 10 ^ bs.length :=
          Nat.mul_le_mul_right _ (by omega)
        rw [Nat.add_mul, one_mul] at hstep
        have hva2 : natOfDigits as < 10 ^ bs.length := by
          rw [← hlen2]
          exact hva
        simp only [natOfDigits, hlen2]
        omega
      · by_cases h2 : b.toNat < a.toNat
        · rw [if_neg h1, if_pos h2] at h
          cases h
        · rw [if_neg h1, if_neg h2] at h
          have he : a.toNat = b.toNat := by omega
          have hv := ih bs hlen2 (fun x hx => hca x (List.mem_cons_of_mem a hx))
            (fun x hx => hcd x (List.mem_cons_of_mem b hx)) h
          simp only [natOfDigits, hlen2, he]
          omega

theorem natOfDigits_append :
    ∀ l1 l2 : List Char,
      natOfDigits (l1 ++ l2) = natOfDigits l1 * 10 ^ l2.length + natOfDigits l2 := by
  intro l1 l2
  induction l1 with
  | nil => simp [natOfDigits]
  | cons c t ih =>
    show natOfDigits (c :: (t ++ l2)) = _
    rw [show natOfDigits (c :: (t ++ l2)) =
        (c.toNat - 48) * 10 ^ (t ++ l2).length + natOfDigits (t ++ l2) from rfl,
      show natOfDigits (c :: t) = (c.toNat - 48) * 10 ^ t.length + natOfDigits t from rfl,
      ih, List.length_append, pow_add]
    ring

theorem charListLe_refl : ∀ l : List Char, charListLe l l = true := by
  intro l
  induction l with
  | nil => rfl
  | cons c t ih =>
    simp only [charListLe]
    rw [if_neg (Nat.lt_irrefl _), if_neg (Nat.lt_irrefl _)]
    exact ih

theorem eight_digit_packed {s : String} (h : isEightDigitName s = true) :
    natOfDigits s.data =
        (folderDate s).y * 10000 + ((folderDate s).m * 100 + (folderDate s).d) ∧
      (folderDate s).m < 100 ∧ (folderDate s).d < 100 := by
  unfold isEightDigitName at h
  simp only [Bool.and_eq_true, decide_eq_true_eq, List.all_eq_true] at h
  obtain ⟨hlen, hall⟩ := h
  have hsplit1 : s.data = s.data.take 4 ++ s.data.drop 4 := (List.take_append_drop 4 _).symm
  have hsplit2 : s.data.drop 4 = (s.data.drop 4).take 2 ++ s.data.drop 6 := by
    have hdd : (s.data.drop 4).drop 2 = s.data.drop 6 := by
      rw [List.drop_drop]
    rw [← hdd]
    exact (List.take_append_drop 2 _).symm
  have hlen4 : (s.data.drop 4).length = 4 := by
    rw [List.length_drop, hlen]
  have hlen6 : (s.data.drop 6).length = 2 := by
    rw [List.length_drop, hlen]
  have hlent : ((s.data.drop 4).take 2).length = 2 := by
    rw [List.length_take, hlen4]
    omega
  have hm : (folderDate s).m < 100 := by
    have := natOfDigits_lt_pow ((s.data.drop 4).take 2) fun c hc =>
      hall c (((List.take_sublist 2 _).trans (List.drop_sublist 4 _)).mem hc)
    rw [hlent] at this
    exact this
  have hd : (folderDate s).d < 100 := by
    have := natOfDigits_lt_pow (s.data.drop 6) fun c hc =>
      hall c ((List.drop_sublist 6 _).mem hc)
    rw [hlen6] at this
    exact this
  refine ⟨?_, hm, hd⟩
  conv_lhs => rw [hsplit1]
  rw [natOfDigits_append]
  conv_lhs => rw [hsplit2]
  rw [natOfDigits_append, hlen6]
  have hlen42 : (s.data.drop 4).length = 4 := hlen4
  rw [show ((s.data.drop 4).take 2 ++ s.data.drop 6).length = 4 by
    rw [List.length_append, hlent, hlen6]]
  show natOfDigits (s.data.take 4) * 10 ^ 4 +
      (natOfDigits ((s.data.drop 4).take 2) * 10 ^ 2 + natOfDigits (s.data.drop 6)) = _
  norm_num [folderDate]

/-- A string-sorted pair of valid folder names is chronologically sorted. -/
theorem chrono_of_strLe {a b : String} (ha : isEightDigitName a = true)
    (hb : isEightDigitName b = true) (h : strLe a b = true) :
    dateLtb (folderDate b) (folderDate a) = false := by
  have hlena : a.data.length = 8 := by
    unfold isEightDigitName at ha
    simp only [Bool.and_eq_true, decide_eq_true_eq] at ha
    exact ha.1
  have hlenb : b.data.length = 8 := by
    unfold isEightDigitName at hb
    simp only [Bool.and_eq_true, decide_eq_true_eq] at hb
    exact hb.1
  have halla : ∀ c ∈ a.data, c.isDigit = true := by
    unfold isEightDigitName at ha
    simp only [Bool.and_eq_true, decide_eq_true_eq, List.all_eq_true] at ha
    exact ha.2
  have hallb : ∀ c ∈ b.data, c.isDigit = true := by
    unfold isEightDigitName at hb
    simp only [Bool.and_eq_true, decide_eq_true_eq, List.all_eq_true] at hb
    exact hb.2
  have hle : natOfDigits a.data ≤ natOfDigits b.data :=
    charListLe_natOfDigits_le a.data b.data (by omega) halla hallb h
  obtain ⟨hpa, hma, hda⟩ := eight_digit_packed ha
  obtain ⟨hpb, hmb, hdb⟩ := eight_digit_packed hb
  rw [dateLtb_eq_false_iff]
  rw [hpa, hpb] at hle
  omega

end CVDiff

namespace CVDiff

theorem mem_get_all_date_folders (entries : List (String × Bool)) (s : String) :
    s ∈ get_all_date_folders entries ↔
      ((s, true) ∈ entries ∧ isEightDigitName s = true ∧ validYmd8 s = true) := by
  unfold get_all_date_folders
  rw [(List.perm_insertionSort _ _).mem_iff]
  simp only [List.mem_map, List.mem_filter, Bool.and_eq_true]
  constructor
  · rintro ⟨p, ⟨hp, ⟨hdir, h8⟩, hv⟩, rfl⟩
    have hpe : p = (p.1, true) := by
      obtain ⟨p1, p2⟩ := p
      simp only at hdir
      simp [hdir]
    exact ⟨hpe ▸ hp, h8, hv⟩
  · rintro ⟨hmem, h8, hv⟩
    exact ⟨(s, true), ⟨hmem, ⟨rfl, h8⟩, hv⟩, rfl⟩

theorem sorted_get_all_date_folders (entries : List (String × Bool)) :
    List.Pairwise (fun a b => strLe a b = true) (get_all_date_folders entries) :=
  List.sorted_insertionSort _ _

theorem chrono_sorted_get_all_date_folders (entries : List (String × Bool)) :
    List.Pairwise (fun a b => dateLtb (folderDate b) (folderDate a) = false)
      (get_all_date_folders entries) := by
  refine List.Pairwise.imp_of_mem ?_ (sorted_get_all_date_folders entries)
  intro a b ha hb hr
  exact chrono_of_strLe ((mem_get_all_date_folders entries a).1 ha).2.1
    ((mem_get_all_date_folders entries b).1 hb).2.1 hr

theorem resolveComparison_eq_some (entries : List (String × Bool))
    (h2 : ¬ (get_all_date_folders entries).length < 2) :
    ∃ od nd, resolveComparison entries = some (od, nd) ∧
      od ∈ get_all_date_folders entries ∧ nd ∈ get_all_date_folders entries ∧
      (∀ t ∈ get_all_date_folders entries,
        dateLtb (folderDate nd) (folderDate t) = false) ∧
      (∀ t ∈ get_all_date_folders entries, t ≠ nd →
        dateLtb (folderDate od) (folderDate t) = false) := by
  have hsorted := sorted_get_all_date_folders entries
  have hvalid : ∀ t ∈ get_all_date_folders entries, isEightDigitName t = true :=
    fun t ht => ((mem_get_all_date_folders entries t).1 ht).2.1
  refine ⟨(get_all_date_folders entries).get ⟨(get_all_date_folders entries).length - 2,
      by omega⟩,
    (get_all_date_folders entries).get ⟨(get_all_date_folders entries).length - 1,
      by omega⟩, ?_, List.get_mem _ _ _, List.get_mem _ _ _, ?_, ?_⟩
  · unfold resolveComparison
    rw [dif_neg h2]
  · intro t ht
    rcases List.mem_iff_get.1 ht with ⟨i, rfl⟩
    by_cases hi : (i : Nat) = (get_all_date_folders entries).length - 1
    · have : i = ⟨(get_all_date_folders entries).length - 1, by omega⟩ := Fin.ext hi
      rw [this]
      exact dateLtb_irrefl _
    · have hlt : i < (⟨(get_all_date_folders entries).length - 1, by omega⟩ :
          Fin (get_all_date_folders entries).length) := by
        rw [Fin.lt_def]
        simp only
        omega
      have hr := List.Sorted.rel_get_of_lt hsorted hlt
      exact chrono_of_strLe (hvalid _ (List.get_mem _ i.1 i.2))
        (hvalid _ (List.get_mem _ _ _)) hr
  · intro t ht hne
    rcases List.mem_iff_get.1 ht with ⟨i, rfl⟩
    by_cases hi1 : (i : Nat) = (get_all_date_folders entries).length - 1
    · exact absurd (congrArg (get_all_date_folders entries).get (Fin.ext hi1)) hne
    by_cases hi2 : (i : Nat) = (get_all_date_folders entries).length - 2
    · have : i = ⟨(get_all_date_folders entries).length - 2, by omega⟩ := Fin.ext hi2
      rw [this]
      exact dateLtb_irrefl _
    · have hlt : i < (⟨(get_all_date_folders entries).length - 2, by omega⟩ :
          Fin (get_all_date_folders entries).length) := by
        rw [Fin.lt_def]
        simp only
        omega
      have hr := List.Sorted.rel_get_of_lt hsorted hlt
      exact chrono_of_strLe (hvalid _ (List.get_mem _ i.1 i.2))
        (hvalid _ (List.get_mem _ _ _)) hr

theorem compare_none_of_few (report_type wd : String) (fs : FileSys)
    (h : (get_all_date_folders fs.backupEntries).length < 2) :
    compare_and_update report_type fs = none ∧
      runCategory report_type wd fs = (fs, none) := by
  have hres : resolveComparison fs.backupEntries = none := by
    unfold resolveComparison
    rw [dif_pos h]
  have hcmp : compare_and_update report_type fs = none := by
    unfold compare_and_update
    rw [hres]
  refine ⟨hcmp, ?_⟩
  unfold runCategory
  rw [hcmp]

theorem substation_csv_ne (day wd : String) :
    reportCsvName (baseFilename "Substation") day ≠
      reportCsvName (baseFilename "Composite") wd := by
  intro he
  have hs : (reportCsvName (baseFilename "Substation") day).data.head? = some 'S' := rfl
  have hc : (reportCsvName (baseFilename "Composite") wd).data.head? = some 'C' := rfl
  rw [he, hc] at hs
  cases hs

theorem dictFind_dictInsert_ne {α : Type} (k k2 : String) (v : α)
    (d : List (String × α)) (h : k2 ≠ k) :
    dictFind (dictInsert k v d) k2 = dictFind d k2 := by
  induction d with
  | nil => simp [dictInsert, dictFind, Ne.symm h]
  | cons p t ih =>
    by_cases hp : p.1 = k
    · have hne : p.1 ≠ k2 := fun hpe => absurd (hp ▸ hpe) (Ne.symm h)
      rw [show dictInsert k v (p :: t) = (k, v) :: t by simp [dictInsert, hp],
        show dictFind ((k, v) :: t) k2 = dictFind t k2 by simp [dictFind, Ne.symm h],
        show dictFind (p :: t) k2 = dictFind t k2 by simp [dictFind, hne]]
    · rw [show dictInsert k v (p :: t) = p :: dictInsert k v t by simp [dictInsert, hp]]
      by_cases hk2 : p.1 = k2
      · rw [show dictFind (p :: dictInsert k v t) k2 = some p.2 by simp [dictFind, hk2],
          show dictFind (p :: t) k2 = some p.2 by simp [dictFind, hk2]]
      · rw [show dictFind (p :: dictInsert k v t) k2 = dictFind (dictInsert k v t) k2 by
            simp [dictFind, hk2],
          show dictFind (p :: t) k2 = dictFind t k2 by simp [dictFind, hk2]]
        exact ih

theorem fileCandidate_insert (reports : List (String × ReportFile)) (file : ReportFile)
    (wd day : String) :
    fileCandidate
        (dictInsert (reportCsvName (baseFilename "Composite") wd) file reports)
        (baseFilename "Substation") day =
      fileCandidate reports (baseFilename "Substation") day := by
  unfold fileCandidate
  rw [dictFind_dictInsert_ne _ _ _ _ (substation_csv_ne day wd)]

theorem findLatestAux_insert (reports : List (String × ReportFile)) (file : ReportFile)
    (wd : String) :
    ∀ (days : List String) (acc : Option (String × Date)),
      findLatestAux (dictInsert (reportCsvName (baseFilename "Composite") wd) file reports)
          (baseFilename "Substation") days acc =
        findLatestAux reports (baseFilename "Substation") days acc := by
  intro days
  induction days with
  | nil => intro acc; rfl
  | cons day rest ih =>
    intro acc
    simp only [findLatestAux, fileCandidate_insert, ih]

theorem find_latest_insert (reports : List (String × ReportFile)) (file : ReportFile)
    (wd : String) :
    find_latest_diffreport_csv
        (dictInsert (reportCsvName (baseFilename "Composite") wd) file reports)
        "Substation" =
      find_latest_diffreport_csv reports "Substation" := by
  unfold find_latest_diffreport_csv
  rw [findLatestAux_insert reports file wd weekdays none]

theorem find_latest_shape {reports : List (String × ReportFile)} {rt f : String}
    (h : find_latest_diffreport_csv reports rt = some f) :
    ∃ day ∈ weekdays, f = reportCsvName (baseFilename rt) day := by
  unfold find_latest_diffreport_csv at h
  cases haux : findLatestAux reports (baseFilename rt) weekdays none with
  | none => rw [haux] at h; cases h
  | some pr =>
    obtain ⟨g, d⟩ := pr
    rw [haux] at h
    obtain rfl : g = f := by simpa using h
    rcases findLatestAux_mem reports (baseFilename rt) weekdays none g d haux with
      hacc | ⟨day, hday, he, _⟩
    · cases hacc
    · exact ⟨day, hday, he⟩

theorem load_old_report_insert (reports : List (String × ReportFile))
    (file : ReportFile) (wd : String) :
    load_old_report
        (dictInsert (reportCsvName (baseFilename "Composite") wd) file reports)
        "Substation" =
      load_old_report reports "Substation" := by
  unfold load_old_report
  rw [find_latest_insert reports file wd]
  cases hf : find_latest_diffreport_csv reports "Substation" with
  | none => rfl
  | some fname =>
    rcases find_latest_shape hf with ⟨day, hday, rfl⟩
    show (match dictFind
        (dictInsert (reportCsvName (baseFilename "Composite") wd) file reports)
        (reportCsvName (baseFilename "Substation") day) with
      | some file => file.rows.map (fun p : String × Option String =>
          (p.1, convert_date p.2))
      | none => []) =
      (match dictFind reports (reportCsvName (baseFilename "Substation") day) with
      | some file => file.rows.map (fun p : String × Option String =>
          (p.1, convert_date p.2))
      | none => [])
    rw [dictFind_dictInsert_ne _ _ _ _ (substation_csv_ne day wd)]

theorem compare_reports_congr (fs : FileSys) (r1 : List (String × ReportFile))
    (hlr : load_old_report r1 "Substation" = load_old_report fs.reports "Substation") :
    compare_and_update "Substation" { fs with reports := r1 } =
      compare_and_update "Substation" fs := by
  unfold compare_and_update
  cases hres : resolveComparison fs.backupEntries with
  | none => rfl
  | some pr =>
    obtain ⟨od, nd⟩ := pr
    rw [show ({ fs with reports := r1 } : FileSys).reports = r1 from rfl, hlr]
    have hfb : ∀ d : String, find_backup_folder { fs with reports := r1 } d "Substation" =
        find_backup_folder fs d "Substation" := fun d => rfl
    simp only [hfb]

set_option maxHeartbeats 1000000 in
theorem substation_unaffected (wd : String) (fs : FileSys) :
    (runBoth wd fs).2.2 = (runCategory "Substation" wd fs).2 := by
  unfold runBoth
  cases hc : compare_and_update "Composite" fs with
  | none => simp only [runCategory, hc]
  | some rep =>
    simp only [runCategory, hc]
    have hcmp := compare_reports_congr fs
      (dictInsert (reportCsvName (baseFilename "Composite") wd)
        (ReportFile.mk (rep.map (fun r => (r.name, r.date)))) fs.reports)
      (load_old_report_insert fs.reports
        (ReportFile.mk (rep.map (fun r => (r.name, r.date)))) wd)
    rw [hcmp]
    cases compare_and_update "Substation" fs <;> rfl

end CVDiff

namespace CVDiff

/-- A filesystem with a single snapshot folder: too few versions. -/
def fewFs : FileSys where
  backupEntries := [("20240101", true)]
  catFolder := fun _ _ => none
  reports := []

/-- Claim C6: the resolver keeps exactly the directory names that are eight
digits forming a valid YYYYMMDD calendar date, in ascending (chronological)
order; a run with at least two of them compares the two chronologically
latest as (old, new); with fewer than two the category run yields no report
and leaves the filesystem untouched; and in a `both` run the Substation
result is unaffected by the Composite run. -/
theorem claim_C6 (fs : FileSys) (report_type wd s : String) :
    (s ∈ get_all_date_folders fs.backupEntries ↔
      ((s, true) ∈ fs.backupEntries ∧ isEightDigitName s = true ∧ validYmd8 s = true)) ∧
    List.Pairwise (fun a b => dateLtb (folderDate b) (folderDate a) = false)
      (get_all_date_folders fs.backupEntries) ∧
    (¬ (get_all_date_folders fs.backupEntries).length < 2 →
      ∃ od nd, resolveComparison fs.backupEntries = some (od, nd) ∧
        od ∈ get_all_date_folders fs.backupEntries ∧
        nd ∈ get_all_date_folders fs.backupEntries ∧
        (∀ t ∈ get_all_date_folders fs.backupEntries,
          dateLtb (folderDate nd) (folderDate t) = false) ∧
        (∀ t ∈ get_all_date_folders fs.backupEntries, t ≠ nd →
          dateLtb (folderDate od) (folderDate t) = false)) ∧
    ((get_all_date_folders fs.backupEntries).length < 2 →
      compare_and_update report_type fs = none ∧
      runCategory report_type wd fs = (fs, none)) ∧
    (runBoth wd fs).2.2 = (runCategory "Substation" wd fs).2 :=
  ⟨mem_get_all_date_folders fs.backupEntries s,
    chrono_sorted_get_all_date_folders fs.backupEntries,
    resolveComparison_eq_some fs.backupEntries,
    compare_none_of_few report_type wd fs,
    substation_unaffected wd fs⟩

theorem claim_C6_witness :
    "20240102" ∈ get_all_date_folders sampleFs.backupEntries ∧
      (∃ od nd, resolveComparison sampleFs.backupEntries = some (od, nd) ∧
        od ∈ get_all_date_folders sampleFs.backupEntries ∧
        nd ∈ get_all_date_folders sampleFs.backupEntries ∧
        (∀ t ∈ get_all_date_folders sampleFs.backupEntries,
          dateLtb (folderDate nd) (folderDate t) = false) ∧
        (∀ t ∈ get_all_date_folders sampleFs.backupEntries, t ≠ nd →
          dateLtb (folderDate od) (folderDate t) = false)) ∧
      (compare_and_update "Composite" fewFs = none ∧
        runCategory "Composite" "Mon" fewFs = (fewFs, none)) ∧
      (runBoth "Mon" sampleFs).2.2 = (runCategory "Substation" "Mon" sampleFs).2 :=
  ⟨(claim_C6 sampleFs "Composite" "Mon" "20240102").1.mpr (by decide),
    (claim_C6 sampleFs "Composite" "Mon" "x").2.2.1 (by decide),
    (claim_C6 fewFs "Composite" "Mon" "x").2.2.2.1 (by decide),
    (claim_C6 sampleFs "Composite" "Mon" "x").2.2.2.2⟩

end CVDiff
